import Mathlib

/-!
Verification development for the marimo reactive-notebook runtime.

Part 1 embeds the configuration endpoint
(src/marimo/_server/api/endpoints/config.py) as a pure function from the
request body and the (injected) persistence function to the list of
host-side actions the handler performs.

Part 2 models the dataflow dependency graph and incremental execution
scheduler from the specification (the corresponding source is not part of
the visible slice of the repository), as a deterministic small-step
development: a static analyzer over a small expression language, a derived
dependency graph, a structural-error recomputation, and an edit-driven
scheduling pass.
-/

namespace MarimoSpec

/-! ## Part 1: configuration endpoint -/

/-- User configuration: the copilot toggle that drives the LSP side-service,
plus an opaque payload standing for all remaining fields. -/
structure UserConfig where
  copilot : Bool
  payload : Nat
deriving DecidableEq

/-- Control-queue requests delivered to the kernel. -/
inductive ControlRequest where
  | setUserConfig (c : UserConfig)
deriving DecidableEq

/-- Observable host-side actions of the endpoint handler. -/
inductive ServerAction where
  | startLspServer
  | stopLspServer
  | putControlRequest (r : ControlRequest)
deriving DecidableEq

/-- Failure of persisting the configuration to disk. -/
inductive SaveError where
  | ioFailure
deriving DecidableEq

/-- The `save_user_config` handler of config.py: persist the body's
configuration via `saveConfig` (config.py line 40); on success, start the
LSP server when the returned configuration's copilot toggle is set
(lines 43-45) and enqueue a `SetUserConfigRequest` carrying the body's
configuration (lines 48-50).  A raised save error propagates, producing no
actions. -/
def save_user_config (saveConfig : UserConfig → Except SaveError UserConfig)
    (bodyConfig : UserConfig) : Except SaveError (List ServerAction) :=
  match saveConfig bodyConfig with
  | .error e => .error e
  | .ok config =>
      .ok ((if config.copilot then [ServerAction.startLspServer] else []) ++
        [ServerAction.putControlRequest (.setUserConfig bodyConfig)])

/-- Recognize control-queue actions. -/
def isControlAction : ServerAction → Bool
  | .putControlRequest _ => true
  | _ => false

/-! ## Part 1: theorems for claims C8, C9, C10 -/

/-- C8 (counterexample): the claim states the copilot side-service is
stopped by the host when the saved configuration's toggle is disabled; on
a concrete accepted request with the toggle disabled the handler emits no
`stopLspServer` action at all. -/
theorem C8_counterexample :
    save_user_config Except.ok { copilot := false, payload := 0 } =
      .ok [ServerAction.putControlRequest
        (.setUserConfig { copilot := false, payload := 0 })] ∧
    ServerAction.stopLspServer ∉
      [ServerAction.putControlRequest
        (.setUserConfig (UserConfig.mk false 0))] := by
  constructor
  · rfl
  · decide

/-- C8 (amended): for every accepted `save_user_config` request the handler
starts the LSP side-service exactly when the saved configuration's copilot
toggle is enabled, never issues a stop, and informs the kernel of the
change through exactly one `SetUserConfigRequest` on the control queue. -/
theorem C8_host_side_service (save : UserConfig → Except SaveError UserConfig)
    (body cfg : UserConfig) (h : save body = .ok cfg) :
    ∃ acts, save_user_config save body = .ok acts ∧
      (ServerAction.startLspServer ∈ acts ↔ cfg.copilot = true) ∧
      ServerAction.stopLspServer ∉ acts ∧
      acts.filter isControlAction =
        [ServerAction.putControlRequest (.setUserConfig body)] := by
  refine ⟨(if cfg.copilot then [ServerAction.startLspServer] else []) ++
      [ServerAction.putControlRequest (.setUserConfig body)],
    by simp [save_user_config, h], ?_, ?_, ?_⟩
  · cases hc : cfg.copilot <;> simp [hc]
  · cases hc : cfg.copilot <;> simp [hc]
  · cases hc : cfg.copilot <;> simp [hc, isControlAction]

/-- C8 (witness): concrete accepted request with copilot enabled. -/
theorem C8_host_side_service_witness :
    (fun _ => Except.ok (UserConfig.mk true 1) :
        UserConfig → Except SaveError UserConfig) (UserConfig.mk false 0) =
      .ok (UserConfig.mk true 1) ∧
    ∃ acts, save_user_config (fun _ => Except.ok (UserConfig.mk true 1))
        (UserConfig.mk false 0) = .ok acts ∧
      (ServerAction.startLspServer ∈ acts ↔ (UserConfig.mk true 1).copilot = true) ∧
      ServerAction.stopLspServer ∉ acts ∧
      acts.filter isControlAction =
        [ServerAction.putControlRequest (.setUserConfig (UserConfig.mk false 0))] :=
  ⟨rfl, C8_host_side_service (fun _ => Except.ok (UserConfig.mk true 1))
    (UserConfig.mk false 0) (UserConfig.mk true 1) rfl⟩

/-- C9: if persisting the configuration fails, the handler performs no
further action: no LSP start and no control-queue request — the error from
`save_config` propagates before either effect (config.py lines 40-50). -/
theorem C9_no_effects_on_save_failure
    (save : UserConfig → Except SaveError UserConfig) (body : UserConfig)
    (e : SaveError) (h : save body = .error e) :
    save_user_config save body = .error e := by
  simp [save_user_config, h]

/-- C9 (witness): concrete failing save. -/
theorem C9_no_effects_on_save_failure_witness :
    (fun _ => Except.error SaveError.ioFailure :
        UserConfig → Except SaveError UserConfig) (UserConfig.mk true 0) =
      .error SaveError.ioFailure ∧
    save_user_config (fun _ => Except.error SaveError.ioFailure)
      (UserConfig.mk true 0) = .error SaveError.ioFailure :=
  ⟨rfl, C9_no_effects_on_save_failure (fun _ => Except.error SaveError.ioFailure)
    (UserConfig.mk true 0) SaveError.ioFailure rfl⟩

/-- C10: on every accepted request the control queue receives the body's
configuration verbatim (config.py line 49), while the LSP start decision is
taken from the configuration returned by `save_config` (line 43); the final
conjunct exhibits a request on which the two observers see different
configurations. -/
theorem C10_body_to_kernel_saved_to_host
    (save : UserConfig → Except SaveError UserConfig)
    (body cfg : UserConfig) (h : save body = .ok cfg) :
    (∃ acts, save_user_config save body = .ok acts ∧
      ServerAction.putControlRequest (.setUserConfig body) ∈ acts ∧
      (∀ c, ServerAction.putControlRequest (.setUserConfig c) ∈ acts → c = body) ∧
      (ServerAction.startLspServer ∈ acts ↔ cfg.copilot = true)) ∧
    (∃ sv b c, sv b = Except.ok c ∧ c ≠ b ∧ c.copilot = true ∧ b.copilot = false ∧
      save_user_config sv b =
        .ok [ServerAction.startLspServer,
          ServerAction.putControlRequest (.setUserConfig b)]) := by
  constructor
  · refine ⟨(if cfg.copilot then [ServerAction.startLspServer] else []) ++
        [ServerAction.putControlRequest (.setUserConfig body)],
      by simp [save_user_config, h], ?_, ?_, ?_⟩
    · cases hc : cfg.copilot <;> simp [hc]
    · intro c hc
      rcases List.mem_append.mp hc with hm | hm
      · split at hm <;> simp_all
      · simp_all
    · cases hc : cfg.copilot <;> simp [hc]
  · exact ⟨fun _ => Except.ok (UserConfig.mk true 1), UserConfig.mk false 0,
      UserConfig.mk true 1, rfl, by decide, rfl, rfl, rfl⟩

/-- C10 (witness): concrete accepted request. -/
theorem C10_body_to_kernel_saved_to_host_witness :
    (fun c => Except.ok c : UserConfig → Except SaveError UserConfig)
        (UserConfig.mk true 2) = .ok (UserConfig.mk true 2) ∧
    ((∃ acts, save_user_config (fun c => Except.ok c) (UserConfig.mk true 2) =
        .ok acts ∧
      ServerAction.putControlRequest (.setUserConfig (UserConfig.mk true 2)) ∈ acts ∧
      (∀ c, ServerAction.putControlRequest (.setUserConfig c) ∈ acts →
        c = UserConfig.mk true 2) ∧
      (ServerAction.startLspServer ∈ acts ↔ (UserConfig.mk true 2).copilot = true)) ∧
    (∃ sv b c, sv b = Except.ok c ∧ c ≠ b ∧ c.copilot = true ∧ b.copilot = false ∧
      save_user_config sv b =
        .ok [ServerAction.startLspServer,
          ServerAction.putControlRequest (.setUserConfig b)])) :=
  ⟨rfl, C10_body_to_kernel_saved_to_host (fun c => Except.ok c)
    (UserConfig.mk true 2) (UserConfig.mk true 2) rfl⟩

/-! ## Part 2: the reactive core, modelled from the spec

The dependency-graph / scheduler core described by sections 2-5 and 7 of
the specification is not part of the visible source slice; every
definition below is modelled from the specification's words. -/

/-- Variable names of the Static Analyzer's symbol sets. -/
abbrev Name := Nat

/-- Opaque output values of the Runtime Environment. -/
abbrev Value := Int

/-- Modelled from the spec: a unit body is a sequence of assignments in a
small expression language; division by zero is the runtime fault. -/
inductive Expr where
  | const (v : Value)
  | var (n : Name)
  | add (a b : Expr)
  | div (a b : Expr)
deriving DecidableEq

/-- The Runtime Environment's binding table: name to current value. -/
abbrev Env := Name → Option Value

/-- Modelled from the spec: evaluation of an expression against current
bindings; `none` is a raised runtime fault (unbound name, zero divisor). -/
def evalE (env : Env) : Expr → Option Value
  | .const v => some v
  | .var n => env n
  | .add a b =>
    match evalE env a, evalE env b with
    | some x, some y => some (x + y)
    | _, _ => none
  | .div a b =>
    match evalE env a, evalE env b with
    | some x, some y => if y = 0 then none else some (x / y)
    | _, _ => none

/-- Free names of an expression. -/
def freeVars : Expr → List Name
  | .const _ => []
  | .var n => [n]
  | .add a b => freeVars a ++ freeVars b
  | .div a b => freeVars a ++ freeVars b

/-- One statement of a unit body: an assignment `name := expr`. -/
abbrev Stmt := Name × Expr

/-- Append a name to an ordered definition list if not yet present. -/
def insName (n : Name) (ds : List Name) : List Name :=
  if n ∈ ds then ds else ds ++ [n]

/-- Modelled from the spec (4.1): ordered defined names of a body, given
names already defined by earlier statements. -/
def defsFrom (ds : List Name) : List Stmt → List Name
  | [] => ds
  | (n, _) :: rest => defsFrom (insName n ds) rest

/-- Modelled from the spec (4.1): referenced free names of a body,
excluding names the unit itself defines in an earlier statement. -/
def refsFrom (ds : List Name) : List Stmt → List Name
  | [] => []
  | (n, e) :: rest =>
    (freeVars e).filter (fun m => m ∉ ds) ++ refsFrom (insName n ds) rest

/-- Static Analyzer output: ordered defined names. -/
def analyzeDefs (code : List Stmt) : List Name := defsFrom [] code

/-- Static Analyzer output: referenced free names. -/
def analyzeRefs (code : List Stmt) : List Name := refsFrom [] code

/-- Modelled from the spec (4.3 step 5): sequential execution of a unit
body over a local copy of the bindings; `none` is a raised fault. -/
def execStmts : Env → List Stmt → Option Env
  | env, [] => some env
  | env, (n, e) :: rest =>
    match evalE env e with
    | none => none
    | some v => execStmts (fun m => if m = n then some v else env m) rest

/-- Error taxonomy of spec section 7. -/
inductive UErr where
  | syntaxErr
  | cycleErr
  | multiDefErr
  | runtimeErr
deriving DecidableEq

/-- Per-unit execution status (spec section 3). -/
inductive UStatus where
  | idle
  | queued
  | running
  | stale
  | disabled
  | error (e : UErr)
deriving DecidableEq

/-- A notebook cell: body, analyzed def/ref sets, status, last output. -/
structure CodeUnit where
  code : List Stmt
  defs : List Name
  refs : List Name
  status : UStatus
  output : List (Name × Value)
deriving DecidableEq

/-- Notebook state: units keyed by their position index (identifier and
original position coincide here, as units are never reordered), plus the
Runtime Environment's binding table. -/
structure Notebook where
  len : Nat
  unit : Nat → CodeUnit
  env : Env

/-- `j` is a live (non-disabled) definer of name `n`. -/
def ndefB (nb : Notebook) (j : Nat) (n : Name) : Bool :=
  decide (j < nb.len) && !decide ((nb.unit j).status = .disabled) &&
    decide (n ∈ (nb.unit j).defs)

/-- Derived dependency edge (spec section 3): `edgeB nb j i` holds iff
unit `i` references a name currently defined by unit `j`.  Disabled units
take part in no edges. -/
def edgeB (nb : Notebook) (j i : Nat) : Bool :=
  decide (i < nb.len) && !decide ((nb.unit i).status = .disabled) &&
    (nb.unit i).refs.any (fun n => ndefB nb j n)

/-- One closure step of bounded reachability for a relation on `[0, len)`. -/
def relStep (len : Nat) (r : Nat → Nat → Bool) (S : Finset Nat) : Finset Nat :=
  S ∪ (Finset.range len).filter (fun i => ∃ j ∈ S, r j i = true)

/-- Iterated closure steps. -/
def relIter (len : Nat) (r : Nat → Nat → Bool) : Nat → Finset Nat → Finset Nat
  | 0, S => S
  | k + 1, S => relIter len r k (relStep len r S)

/-- Direct successors of a set. -/
def relNbrs (len : Nat) (r : Nat → Nat → Bool) (S : Finset Nat) : Finset Nat :=
  (Finset.range len).filter (fun i => ∃ j ∈ S, r j i = true)

/-- All strict descendants of a set: nodes reachable by at least one
relation step, computed by `len` closure iterations. -/
def relDesc (len : Nat) (r : Nat → Nat → Bool) (S : Finset Nat) : Finset Nat :=
  relIter len r len (relNbrs len r S)

/-- Strict descendants in the dependency graph (spec 4.2 `descendants`). -/
def strictDescF (nb : Notebook) (S : Finset Nat) : Finset Nat :=
  relDesc nb.len (edgeB nb) S

/-- Strict ancestors in the dependency graph. -/
def strictAncF (nb : Notebook) (S : Finset Nat) : Finset Nat :=
  relDesc nb.len (fun j i => edgeB nb i j) S

/-- Topological rank: number of strict ancestors.  On an acyclic graph an
edge strictly increases the rank of its target. -/
def rankOf (nb : Notebook) (i : Nat) : Nat := (strictAncF nb {i}).card

/-- Scheduling sort key: rank first, then original position (the spec's
stable tie-break within a topological tier). -/
def keyOf (nb : Notebook) (i : Nat) : Nat := rankOf nb i * nb.len + i

/-- Units lying on a dependency cycle. -/
def cycleSetF (nb : Notebook) : Finset Nat :=
  (Finset.range nb.len).filter (fun i => i ∈ strictDescF nb {i})

/-- Live definers of a name. -/
def definersOf (nb : Notebook) (n : Name) : Finset Nat :=
  (Finset.range nb.len).filter (fun j => ndefB nb j n = true)

/-- A name defined by two or more live units (spec 4.2 `upsert`). -/
def conflictedB (nb : Notebook) (n : Name) : Bool :=
  decide (1 < (definersOf nb n).card)

/-- Live units defining some conflicted name. -/
def conflictCore (nb : Notebook) : Finset Nat :=
  (Finset.range nb.len).filter (fun j =>
    (nb.unit j).status ≠ .disabled ∧
      (nb.unit j).defs.any (fun n => conflictedB nb n) = true)

/-- Conflicting definers together with everything reachable downstream. -/
def conflictSetF (nb : Notebook) : Finset Nat :=
  conflictCore nb ∪ strictDescF nb (conflictCore nb)

/-- Structural error states (cycle / multiple definition). -/
def structErr : UStatus → Bool
  | .error .cycleErr => true
  | .error .multiDefErr => true
  | _ => false

/-- Modelled from the spec (4.2 `cycle_check`, `upsert`): status a unit
receives when structural errors are re-derived on a topology change.  A
unit whose structural error no longer applies is reset to `stale`, pending
re-execution. -/
def recomputeStatus (nb : Notebook) (i : Nat) : UStatus :=
  if (nb.unit i).status = .disabled then .disabled
  else if i ∈ cycleSetF nb then .error .cycleErr
  else if i ∈ conflictSetF nb then .error .multiDefErr
  else if structErr (nb.unit i).status then .stale
  else (nb.unit i).status

/-- Re-derive structural statuses; also returns the set of units whose
structural error was cleared by the change. -/
def structuralRecompute (nb : Notebook) : Notebook × Finset Nat :=
  (⟨nb.len,
    fun i => ⟨(nb.unit i).code, (nb.unit i).defs, (nb.unit i).refs,
      recomputeStatus nb i, (nb.unit i).output⟩,
    nb.env⟩,
   (Finset.range nb.len).filter (fun i =>
     structErr (nb.unit i).status = true ∧
       structErr (recomputeStatus nb i) = false))

/-- A unit the Scheduler may execute: not disabled, not in error. -/
def schedulableB (nb : Notebook) (j : Nat) : Bool :=
  match (nb.unit j).status with
  | .idle | .queued | .running | .stale => true
  | .disabled | .error _ => false

/-- Units currently carrying a structural error status. -/
def structErrSet (nb : Notebook) : Finset Nat :=
  (Finset.range nb.len).filter (fun i => structErr (nb.unit i).status = true)

/-- Events of one scheduling pass, in execution order. -/
inductive PassEv where
  | ran (i : Nat)
  | faulted (i : Nat)
  | skipped (i : Nat)
  | unresolvedRef (i : Nat)
deriving DecidableEq

/-- The unit an event belongs to. -/
def evUnit : PassEv → Nat
  | .ran i => i
  | .faulted i => i
  | .skipped i => i
  | .unresolvedRef i => i

/-- Replace one unit record. -/
def setUnit (i : Nat) (u : CodeUnit) (nb : Notebook) : Notebook :=
  { nb with unit := fun j => if j = i then u else nb.unit j }

/-- Change one unit's status. -/
def markStatus (i : Nat) (st : UStatus) (nb : Notebook) : Notebook :=
  setUnit i ⟨(nb.unit i).code, (nb.unit i).defs, (nb.unit i).refs, st,
    (nb.unit i).output⟩ nb

/-- Modelled from the spec (4.3 step 5, 4.4): atomically publish a
successfully computed unit's defined names into the Runtime Environment,
record its output, and mark it idle. -/
def publishAt (g : Notebook) (v : Nat) (l : Env) (nb : Notebook) : Notebook :=
  { len := nb.len,
    unit := fun j =>
      if j = v then
        ⟨(nb.unit j).code, (nb.unit j).defs, (nb.unit j).refs, .idle,
          (g.unit v).defs.filterMap (fun n => (l n).map (fun x => (n, x)))⟩
      else nb.unit j,
    env := fun n => if n ∈ (g.unit v).defs then l n else nb.env n }

/-- Modelled from the spec (4.3 step 5): process one unit of the ordered
affected set.  A unit in the skip set is marked stale (ancestor failed or
was unresolved) and retains its output; a unit with unresolved references
goes stale and poisons its strict descendants; a successful body publishes
atomically; a raised fault marks the unit `error(RuntimeError)` and adds
every strict descendant to the skip set. -/
def stepUnit (g : Notebook) (nb : Notebook) (skip : Finset Nat) (v : Nat) :
    Notebook × Finset Nat × PassEv :=
  if v ∈ skip then (markStatus v .stale nb, skip, .skipped v)
  else if (g.unit v).refs.all (fun n => (nb.env n).isSome) then
    match execStmts nb.env (g.unit v).code with
    | some l => (publishAt g v l nb, skip, .ran v)
    | none =>
      (markStatus v (.error .runtimeErr) nb, skip ∪ strictDescF g {v}, .faulted v)
  else (markStatus v .stale nb, skip ∪ strictDescF g {v}, .unresolvedRef v)

/-- Execute an ordered affected set sequentially (spec 4.3 step 5),
collecting the pass events.  `g` is the graph snapshot owned by the pass;
unit bodies and def/ref sets do not change during a pass. -/
def runUnits (g : Notebook) : Notebook → List Nat → Finset Nat → Notebook × List PassEv
  | nb, [], _ => (nb, [])
  | nb, v :: rest, skip =>
    let s := stepUnit g nb skip v
    let r := runUnits g s.1 rest s.2.1
    (r.1, s.2.2 :: r.2)

/-- Order an affected set topologically with the stable position tie-break
(spec 4.2/4.3 step 4). -/
def orderOf (nb : Notebook) (targets : List Nat) : List Nat :=
  List.insertionSort (fun a b => keyOf nb a ≤ keyOf nb b) targets

/-- Run one scheduling pass: order the targets and execute them, with the
strict descendants of structurally erroring units pre-marked for skipping. -/
def runPassOn (nb : Notebook) (targets : List Nat) : Notebook × List PassEv :=
  runUnits nb nb (orderOf nb targets) (strictDescF nb (structErrSet nb))

/-- A unit's source: either statically unparseable, or a body. -/
inductive Src where
  | bad
  | mkCode (stmts : List Stmt)
deriving DecidableEq

/-- Build a unit record from a body via the Static Analyzer. -/
def mkUnit (code : List Stmt) (st : UStatus) (out : List (Name × Value)) : CodeUnit :=
  ⟨code, analyzeDefs code, analyzeRefs code, st, out⟩

/-- Modelled from the spec (4.2 `upsert`): replace a unit's body and
def/ref sets; names the unit no longer defines are removed from the
Runtime Environment's name table. -/
def upsertE (i : Nat) (stmts : List Stmt) (nb : Notebook) : Notebook :=
  { len := nb.len,
    unit := fun j =>
      if j = i then mkUnit stmts (nb.unit i).status (nb.unit i).output
      else nb.unit j,
    env := fun n =>
      if n ∈ (nb.unit i).defs ∧ n ∉ analyzeDefs stmts then none else nb.env n }

/-- Restrict a candidate set to schedulable units, in position order. -/
def passTargets (nb : Notebook) (base : Finset Nat) : List Nat :=
  (List.range nb.len).filter (fun j => decide (j ∈ base) && schedulableB nb j)

/-- Modelled from the spec (4.3 `apply_edit`): analyze the new source; on
a syntax error mark the unit and stop with no graph change and no
execution; otherwise upsert, re-derive structural errors, and run the
scheduling pass over the affected set (the edited unit, its strict
descendants, and units whose structural error the edit resolved). -/
def applyEdit (i : Nat) (s : Src) (nb : Notebook) : Notebook × List PassEv :=
  if i < nb.len then
    match s with
    | .bad => (markStatus i (.error .syntaxErr) nb, [])
    | .mkCode stmts =>
      let p := structuralRecompute (upsertE i stmts nb)
      let base := insert i (strictDescF p.1 {i}) ∪ p.2 ∪ strictDescF p.1 p.2
      runPassOn p.1 (passTargets p.1 base)
  else (nb, [])

/-- Modelled from the spec (3, 4.2): disable a unit; its definitions drop
out of the name table, structural errors are re-derived, and units whose
structural error the change resolved are re-scheduled. -/
def setDisabledOp (i : Nat) (nb : Notebook) : Notebook × List PassEv :=
  if i < nb.len then
    let p := structuralRecompute (markStatus i .disabled nb)
    runPassOn p.1 (passTargets p.1 (p.2 ∪ strictDescF p.1 p.2))
  else (nb, [])

/-- Notebook as loaded: units analyzed, nothing run yet, environment empty. -/
def initNB (srcs : List Src) : Notebook :=
  { len := srcs.length,
    unit := fun j =>
      match srcs.getD j .bad with
      | .bad => mkUnit [] (.error .syntaxErr) []
      | .mkCode stmts => mkUnit stmts .stale [],
    env := fun _ => none }

/-- Run a whole notebook once from the empty Runtime Environment, in
dependency order. -/
def runAllP (srcs : List Src) : Notebook × List PassEv :=
  let p := structuralRecompute (initNB srcs)
  runPassOn p.1 (passTargets p.1 (Finset.range p.1.len))

/-- Final notebook state of a from-scratch run. -/
def runAllNB (srcs : List Src) : Notebook := (runAllP srcs).1

/-- First live definer of a name. -/
def definerIdx (nb : Notebook) (n : Name) : Option Nat :=
  (List.range nb.len).find? (fun j => ndefB nb j n)

/-- Denotational value of each name, by fuel over the dependency depth:
the unique definer's body evaluated against the denotation itself. -/
def semF (nb : Notebook) : Nat → Name → Option Value
  | 0, _ => none
  | k + 1, n =>
    match definerIdx nb n with
    | none => none
    | some i =>
      match execStmts (fun m => semF nb k m) (nb.unit i).code with
      | none => none
      | some l => l n

/-- The stabilized denotation (fuel = number of units). -/
def semW (nb : Notebook) : Env := fun n => semF nb nb.len n

/-- Every unit's stored def/ref sets agree with the Static Analyzer. -/
def wfUnitsB (nb : Notebook) : Bool :=
  (List.range nb.len).all (fun v =>
    decide ((nb.unit v).defs = analyzeDefs (nb.unit v).code) &&
      decide ((nb.unit v).refs = analyzeRefs (nb.unit v).code))

/-- The dependency graph has no cycle. -/
def acyclicB (nb : Notebook) : Bool :=
  (List.range nb.len).all (fun i => decide (i ∉ strictDescF nb {i}))

/-- No name has two live definers. -/
def uniqueDefsB (nb : Notebook) : Bool :=
  (List.range nb.len).all (fun j =>
    (nb.unit j).defs.all (fun n => decide ((definersOf nb n).card ≤ 1)))

/-- Every live unit's references resolve and its body runs without fault
against the denotation: executions all succeed. -/
def greenB (nb : Notebook) : Bool :=
  (List.range nb.len).all (fun v =>
    decide ((nb.unit v).status = .disabled) ||
    ((nb.unit v).refs.all (fun n => (semW nb n).isSome) &&
      (execStmts (semW nb) (nb.unit v).code).isSome))

/-- All units are in a plain runnable state (idle or stale). -/
def normalB (nb : Notebook) : Bool :=
  (List.range nb.len).all (fun v =>
    decide ((nb.unit v).status = .idle) || decide ((nb.unit v).status = .stale))

/-! ### Bounded reachability: soundness, completeness, fixpoint -/

/-- The propositional relation of a boolean one. -/
def relP (r : Nat → Nat → Bool) (a b : Nat) : Prop := r a b = true

theorem mem_relStep {len : Nat} {r : Nat → Nat → Bool} {S : Finset Nat} {i : Nat} :
    i ∈ relStep len r S ↔ i ∈ S ∨ (i < len ∧ ∃ j ∈ S, r j i = true) := by
  simp [relStep, Finset.mem_union, Finset.mem_filter, Finset.mem_range, and_assoc]

theorem relStep_subset (len : Nat) (r : Nat → Nat → Bool) (S : Finset Nat) :
    S ⊆ relStep len r S := Finset.subset_union_left

theorem relIter_subset (len : Nat) (r : Nat → Nat → Bool) :
    ∀ (k : Nat) (S : Finset Nat), S ⊆ relIter len r k S
  | 0, _ => subset_rfl
  | k + 1, S => (relStep_subset len r S).trans (relIter_subset len r k _)

theorem relIter_succ_out (len : Nat) (r : Nat → Nat → Bool) :
    ∀ (k : Nat) (S : Finset Nat),
      relIter len r (k + 1) S = relStep len r (relIter len r k S)
  | 0, _ => rfl
  | k + 1, S => relIter_succ_out len r k (relStep len r S)

theorem relStep_fix_iter (len : Nat) (r : Nat → Nat → Bool) (S : Finset Nat)
    (h : relStep len r S = S) : ∀ k, relIter len r k S = S
  | 0 => rfl
  | k + 1 => by
    have : relIter len r (k + 1) S = relIter len r k S := by
      show relIter len r k (relStep len r S) = relIter len r k S
      rw [h]
    rw [this, relStep_fix_iter len r S h k]

theorem relIter_add (len : Nat) (r : Nat → Nat → Bool) (a : Nat) :
    ∀ (b : Nat) (S : Finset Nat),
      relIter len r (a + b) S = relIter len r a (relIter len r b S)
  | 0, _ => rfl
  | b + 1, S => relIter_add len r a b (relStep len r S)

theorem relIter_range_subset (len : Nat) (r : Nat → Nat → Bool) :
    ∀ (k : Nat) (S : Finset Nat), S ⊆ Finset.range len →
      relIter len r k S ⊆ Finset.range len
  | 0, _, h => h
  | k + 1, S, h => by
    refine relIter_range_subset len r k _ ?_
    intro i hi
    rcases mem_relStep.mp hi with hi | ⟨hlt, _⟩
    · exact h hi
    · exact Finset.mem_range.mpr hlt

theorem card_relIter_of_no_fix (len : Nat) (r : Nat → Nat → Bool) (S : Finset Nat) :
    ∀ k, (∀ m, m < k → relStep len r (relIter len r m S) ≠ relIter len r m S) →
      k + S.card ≤ (relIter len r k S).card
  | 0, _ => by simp [relIter]
  | k + 1, h => by
    have ih := card_relIter_of_no_fix len r S k (fun m hm => h m (Nat.lt_succ_of_lt hm))
    have hne := h k (Nat.lt_succ_self k)
    have hss : relIter len r k S ⊂ relStep len r (relIter len r k S) :=
      Finset.ssubset_iff_subset_ne.mpr ⟨relStep_subset len r _, fun he => hne he.symm⟩
    have hcard := Finset.card_lt_card hss
    rw [relIter_succ_out]
    omega

theorem relStep_empty (len : Nat) (r : Nat → Nat → Bool) : relStep len r ∅ = ∅ := by
  simp [relStep]

theorem relIter_fixpoint (len : Nat) (r : Nat → Nat → Bool) (S : Finset Nat)
    (hS : S ⊆ Finset.range len) :
    relStep len r (relIter len r len S) = relIter len r len S := by
  by_cases hfix : ∃ m, m ≤ len ∧ relStep len r (relIter len r m S) = relIter len r m S
  · obtain ⟨m, hm, hfx⟩ := hfix
    have hsplit : relIter len r len S = relIter len r m S := by
      have h1 : relIter len r ((len - m) + m) S =
          relIter len r (len - m) (relIter len r m S) := relIter_add len r _ m S
      rw [Nat.sub_add_cancel hm] at h1
      rw [h1, relStep_fix_iter len r _ hfx]
    rw [hsplit]
    exact hfx
  · push_neg at hfix
    have hgrow := card_relIter_of_no_fix len r S len
      (fun m hm => hfix m (Nat.le_of_lt hm))
    have hle : (relIter len r len S).card ≤ len := by
      have h1 := Finset.card_le_card (relIter_range_subset len r len S hS)
      simpa using h1
    have hS0 : S = ∅ := Finset.card_eq_zero.mp (by omega)
    subst hS0
    have h0 := hfix 0 (Nat.zero_le len)
    exact absurd (relStep_empty len r) h0

theorem mem_relNbrs {len : Nat} {r : Nat → Nat → Bool} {S : Finset Nat} {i : Nat} :
    i ∈ relNbrs len r S ↔ i < len ∧ ∃ j ∈ S, r j i = true := by
  simp [relNbrs, Finset.mem_filter, Finset.mem_range, and_assoc]

theorem relNbrs_range_subset (len : Nat) (r : Nat → Nat → Bool) (S : Finset Nat) :
    relNbrs len r S ⊆ Finset.range len :=
  Finset.filter_subset _ _

theorem relDesc_base {len : Nat} {r : Nat → Nat → Bool} {S : Finset Nat} {j i : Nat}
    (hri : ∀ a b, r a b = true → b < len) (hj : j ∈ S) (hr : r j i = true) :
    i ∈ relDesc len r S :=
  relIter_subset len r len _ (mem_relNbrs.mpr ⟨hri j i hr, j, hj, hr⟩)

theorem relDesc_closed {len : Nat} {r : Nat → Nat → Bool} {S : Finset Nat} {j i : Nat}
    (hri : ∀ a b, r a b = true → b < len) (hj : j ∈ relDesc len r S)
    (hr : r j i = true) : i ∈ relDesc len r S := by
  have hfix := relIter_fixpoint len r (relNbrs len r S) (relNbrs_range_subset len r S)
  have : i ∈ relStep len r (relDesc len r S) :=
    mem_relStep.mpr (Or.inr ⟨hri j i hr, j, hj, hr⟩)
  rw [relDesc] at *
  rwa [hfix] at this

theorem relIter_sound (len : Nat) (r : Nat → Nat → Bool) :
    ∀ (k : Nat) (T : Finset Nat) (i : Nat), i ∈ relIter len r k T →
      ∃ j ∈ T, Relation.ReflTransGen (relP r) j i
  | 0, _, i, h => ⟨i, h, Relation.ReflTransGen.refl⟩
  | k + 1, T, i, h => by
    obtain ⟨j, hj, hR⟩ := relIter_sound len r k (relStep len r T) i h
    rcases mem_relStep.mp hj with hj | ⟨_, j0, hj0, hr⟩
    · exact ⟨j, hj, hR⟩
    · exact ⟨j0, hj0, Relation.ReflTransGen.head hr hR⟩

theorem relDesc_sound {len : Nat} {r : Nat → Nat → Bool} {S : Finset Nat} {i : Nat}
    (h : i ∈ relDesc len r S) : ∃ j ∈ S, Relation.TransGen (relP r) j i := by
  obtain ⟨j, hj, hR⟩ := relIter_sound len r len (relNbrs len r S) i h
  obtain ⟨_, j0, hj0, hr⟩ := mem_relNbrs.mp hj
  exact ⟨j0, hj0, Relation.TransGen.head' hr hR⟩

theorem relDesc_complete {len : Nat} {r : Nat → Nat → Bool} {S : Finset Nat} {j i : Nat}
    (hri : ∀ a b, r a b = true → b < len) (h : Relation.TransGen (relP r) j i)
    (hj : j ∈ S) : i ∈ relDesc len r S := by
  induction h with
  | single hr => exact relDesc_base hri hj hr
  | tail _ hr ih => exact relDesc_closed hri ih hr

theorem mem_relDesc {len : Nat} {r : Nat → Nat → Bool} {S : Finset Nat} {i : Nat}
    (hri : ∀ a b, r a b = true → b < len) :
    i ∈ relDesc len r S ↔ ∃ j ∈ S, Relation.TransGen (relP r) j i :=
  ⟨relDesc_sound, fun ⟨_, hj, hT⟩ => relDesc_complete hri hT hj⟩

/-! ### Dependency-graph bridges -/

/-- Propositional dependency edge. -/
def edgeP (nb : Notebook) : Nat → Nat → Prop := relP (edgeB nb)

theorem ndefB_iff {nb : Notebook} {j : Nat} {n : Name} :
    ndefB nb j n = true ↔
      j < nb.len ∧ (nb.unit j).status ≠ .disabled ∧ n ∈ (nb.unit j).defs := by
  simp [ndefB, and_assoc]

theorem edgeB_iff {nb : Notebook} {j i : Nat} :
    edgeB nb j i = true ↔
      i < nb.len ∧ (nb.unit i).status ≠ .disabled ∧
        ∃ n ∈ (nb.unit i).refs, ndefB nb j n = true := by
  simp [edgeB, List.any_eq_true, and_assoc]

theorem edgeB_lt {nb : Notebook} {j i : Nat} (h : edgeB nb j i = true) :
    j < nb.len ∧ i < nb.len := by
  obtain ⟨hi, _, n, _, hn⟩ := edgeB_iff.mp h
  exact ⟨(ndefB_iff.mp hn).1, hi⟩

theorem transGen_edge_lt {nb : Notebook} {j i : Nat}
    (h : Relation.TransGen (edgeP nb) j i) : j < nb.len ∧ i < nb.len := by
  induction h with
  | single hr => exact edgeB_lt hr
  | tail _ hr ih => exact ⟨ih.1, (edgeB_lt hr).2⟩

theorem mem_strictDescF {nb : Notebook} {S : Finset Nat} {i : Nat} :
    i ∈ strictDescF nb S ↔ ∃ j ∈ S, Relation.TransGen (edgeP nb) j i :=
  mem_relDesc (fun _ _ h => (edgeB_iff.mp h).1)

theorem mem_strictDescF_single {nb : Notebook} {v i : Nat} :
    i ∈ strictDescF nb {v} ↔ Relation.TransGen (edgeP nb) v i := by
  rw [mem_strictDescF]
  constructor
  · rintro ⟨j, hj, hT⟩
    rw [Finset.mem_singleton] at hj
    exact hj ▸ hT
  · intro hT
    exact ⟨v, Finset.mem_singleton_self v, hT⟩

theorem mem_strictAncF {nb : Notebook} {i a : Nat} :
    a ∈ strictAncF nb {i} ↔ Relation.TransGen (edgeP nb) a i := by
  unfold strictAncF
  rw [mem_relDesc (fun _ _ h => (edgeB_lt h).1)]
  constructor
  · rintro ⟨j, hj, hT⟩
    rw [Finset.mem_singleton] at hj
    subst hj
    exact (Relation.transGen_swap (r := edgeP nb)).mp hT
  · intro hT
    exact ⟨i, Finset.mem_singleton_self i,
      (Relation.transGen_swap (r := edgeP nb)).mpr hT⟩

/-- The dependency graph has no cycle (propositional form). -/
def AcyclicP (nb : Notebook) : Prop := ∀ i, ¬ Relation.TransGen (edgeP nb) i i

theorem acyclicB_iff {nb : Notebook} : acyclicB nb = true ↔ AcyclicP nb := by
  constructor
  · intro h i hT
    have hi : i < nb.len := (transGen_edge_lt hT).1
    have h2 := List.all_eq_true.mp h i (List.mem_range.mpr hi)
    simp only [decide_eq_true_eq] at h2
    exact h2 (mem_strictDescF_single.mpr hT)
  · intro h
    apply List.all_eq_true.mpr
    intro i _
    simp only [decide_eq_true_eq]
    intro hmem
    exact h i (mem_strictDescF_single.mp hmem)

/-- At most one live definer per name (propositional form). -/
def UniqueDefsP (nb : Notebook) : Prop :=
  ∀ n j k, ndefB nb j n = true → ndefB nb k n = true → j = k

theorem uniqueDefsB_to {nb : Notebook} (h : uniqueDefsB nb = true) : UniqueDefsP nb := by
  intro n j k hj hk
  obtain ⟨hjl, _, hjn⟩ := ndefB_iff.mp hj
  have hall := List.all_eq_true.mp h j (List.mem_range.mpr hjl)
  have hcard := List.all_eq_true.mp hall n hjn
  simp only [decide_eq_true_eq] at hcard
  have hjm : j ∈ definersOf nb n :=
    Finset.mem_filter.mpr ⟨Finset.mem_range.mpr hjl, hj⟩
  have hkm : k ∈ definersOf nb n :=
    Finset.mem_filter.mpr ⟨Finset.mem_range.mpr (ndefB_iff.mp hk).1, hk⟩
  exact Finset.card_le_one.mp hcard j hjm k hkm

theorem definerIdx_mem {nb : Notebook} {n : Name} {j : Nat}
    (h : definerIdx nb n = some j) : ndefB nb j n = true := by
  unfold definerIdx at h
  have h2 := List.find?_some (p := fun k => ndefB nb k n) h
  simpa using h2

theorem definerIdx_eq {nb : Notebook} {n : Name} {j : Nat} (hu : UniqueDefsP nb)
    (h : ndefB nb j n = true) : definerIdx nb n = some j := by
  cases hfind : definerIdx nb n with
  | none =>
    unfold definerIdx at hfind
    have h2 := List.find?_eq_none.mp hfind j
      (List.mem_range.mpr (ndefB_iff.mp h).1)
    exact absurd h h2
  | some k =>
    have hk := definerIdx_mem hfind
    exact congrArg some (hu n k j hk h)

theorem definerIdx_none {nb : Notebook} {n : Name} (h : definerIdx nb n = none)
    (j : Nat) : ndefB nb j n = false := by
  by_cases hj : j < nb.len
  · unfold definerIdx at h
    have h2 := List.find?_eq_none.mp h j (List.mem_range.mpr hj)
    simpa using h2
  · simp [ndefB, hj]

theorem rank_lt_of_edge {nb : Notebook} {j i : Nat} (hacy : AcyclicP nb)
    (h : edgeP nb j i) : rankOf nb j < rankOf nb i := by
  apply Finset.card_lt_card
  rw [Finset.ssubset_iff_subset_ne]
  constructor
  · intro a ha
    rw [mem_strictAncF] at *
    exact ha.tail h
  · intro he
    have hj : j ∈ strictAncF nb {i} := mem_strictAncF.mpr (.single h)
    rw [← he] at hj
    exact hacy j (mem_strictAncF.mp hj)

theorem rank_lt_of_transGen {nb : Notebook} {j i : Nat} (hacy : AcyclicP nb)
    (h : Relation.TransGen (edgeP nb) j i) : rankOf nb j < rankOf nb i := by
  induction h with
  | single hr => exact rank_lt_of_edge hacy hr
  | tail _ hr ih => exact ih.trans (rank_lt_of_edge hacy hr)

theorem key_lt_of_transGen {nb : Notebook} {j i : Nat} (hacy : AcyclicP nb)
    (h : Relation.TransGen (edgeP nb) j i) : keyOf nb j < keyOf nb i := by
  have hr := rank_lt_of_transGen hacy h
  have hj : j < nb.len := (transGen_edge_lt h).1
  have h1 : (rankOf nb j + 1) * nb.len ≤ rankOf nb i * nb.len :=
    Nat.mul_le_mul_right _ hr
  have h2 : (rankOf nb j + 1) * nb.len = rankOf nb j * nb.len + nb.len := by ring
  unfold keyOf
  omega

theorem key_tie {nb : Notebook} {a b : Nat}
    (hrank : rankOf nb a = rankOf nb b) (hk : keyOf nb a ≤ keyOf nb b) : a ≤ b := by
  unfold keyOf at hk
  rw [hrank] at hk
  omega

/-! ### Static analysis and body execution -/

theorem evalE_congr : ∀ (e : Expr) {l1 l2 : Env},
    (∀ m ∈ freeVars e, l1 m = l2 m) → evalE l1 e = evalE l2 e
  | .const _, _, _, _ => rfl
  | .var n, _, _, h => h n (by simp [freeVars])
  | .add a b, l1, l2, h => by
    have ha := evalE_congr a (fun m hm => h m (by simp [freeVars, hm]))
    have hb := evalE_congr b (fun m hm => h m (by simp [freeVars, hm]))
    simp only [evalE, ha, hb]
  | .div a b, l1, l2, h => by
    have ha := evalE_congr a (fun m hm => h m (by simp [freeVars, hm]))
    have hb := evalE_congr b (fun m hm => h m (by simp [freeVars, hm]))
    simp only [evalE, ha, hb]

theorem mem_insName {n m : Name} {ds : List Name} :
    m ∈ insName n ds ↔ m = n ∨ m ∈ ds := by
  unfold insName
  split
  · constructor
    · exact fun h => Or.inr h
    · rintro (rfl | h)
      · assumption
      · assumption
  · simp [or_comm]

theorem subset_defsFrom : ∀ (code : List Stmt) (ds : List Name), ∀ m ∈ ds,
    m ∈ defsFrom ds code
  | [], _, _, h => h
  | (_, _) :: rest, _, m, h =>
    subset_defsFrom rest _ m (mem_insName.mpr (Or.inr h))

theorem execStmts_congr : ∀ (code : List Stmt) (ds : List Name) (l1 l2 : Env),
    (∀ n ∈ refsFrom ds code, l1 n = l2 n) →
    (∀ n ∈ ds, l1 n = l2 n) →
    (execStmts l1 code = none ∧ execStmts l2 code = none) ∨
      ∃ r1 r2, execStmts l1 code = some r1 ∧ execStmts l2 code = some r2 ∧
        ∀ n ∈ defsFrom ds code, r1 n = r2 n
  | [], _, l1, l2, _, h2 => Or.inr ⟨l1, l2, rfl, rfl, h2⟩
  | (n, e) :: rest, ds, l1, l2, h1, h2 => by
    have heq : evalE l1 e = evalE l2 e := by
      apply evalE_congr
      intro m hm
      by_cases hmds : m ∈ ds
      · exact h2 m hmds
      · refine h1 m ?_
        simp only [refsFrom, List.mem_append]
        exact Or.inl (List.mem_filter.mpr ⟨hm, by simpa using hmds⟩)
    cases hv : evalE l2 e with
    | none =>
      left
      constructor <;> simp [execStmts, hv, heq]
    | some v =>
      have hrec := execStmts_congr rest (insName n ds)
        (fun m => if m = n then some v else l1 m)
        (fun m => if m = n then some v else l2 m)
        (fun m hm => by
          by_cases hmn : m = n
          · simp [hmn]
          · simp only [if_neg hmn]
            by_cases hmds : m ∈ ds
            · exact h2 m hmds
            · refine h1 m ?_
              simp only [refsFrom, List.mem_append]
              exact Or.inr hm)
        (fun m hm => by
          by_cases hmn : m = n
          · simp [hmn]
          · simp only [if_neg hmn]
            rcases mem_insName.mp hm with rfl | hmds
            · exact absurd rfl hmn
            · exact h2 m hmds)
      simp only [execStmts, heq, hv]
      exact hrec

/-- Every unit record's def/ref sets agree with the Static Analyzer. -/
def WfP (nb : Notebook) : Prop :=
  ∀ v, v < nb.len → (nb.unit v).defs = analyzeDefs (nb.unit v).code ∧
    (nb.unit v).refs = analyzeRefs (nb.unit v).code

theorem wfUnitsB_to {nb : Notebook} (h : wfUnitsB nb = true) : WfP nb := by
  intro v hv
  have h2 := List.all_eq_true.mp h v (List.mem_range.mpr hv)
  simp only [Bool.and_eq_true, decide_eq_true_eq] at h2
  exact h2

theorem semF_no_definer {nb : Notebook} {k : Nat} {n : Name}
    (h : definerIdx nb n = none) : semF nb k n = none := by
  cases k with
  | zero => rfl
  | succ k => simp [semF, h]

theorem rank_lt_len {nb : Notebook} {i : Nat} (hacy : AcyclicP nb)
    (hi : i < nb.len) : rankOf nb i < nb.len := by
  have hsub : strictAncF nb {i} ⊆ (Finset.range nb.len).erase i := by
    intro a ha
    rw [mem_strictAncF] at ha
    refine Finset.mem_erase.mpr ⟨?_, Finset.mem_range.mpr (transGen_edge_lt ha).1⟩
    intro he
    subst he
    exact hacy a ha
  calc rankOf nb i ≤ ((Finset.range nb.len).erase i).card := Finset.card_le_card hsub
    _ < (Finset.range nb.len).card :=
        Finset.card_erase_lt_of_mem (Finset.mem_range.mpr hi)
    _ = nb.len := Finset.card_range _

theorem semF_stable_aux (nb : Notebook) (hacy : AcyclicP nb) (hwf : WfP nb) :
    ∀ (R i : Nat) (n : Name) (a b : Nat), rankOf nb i ≤ R →
      definerIdx nb n = some i → rankOf nb i < a → rankOf nb i < b →
      semF nb a n = semF nb b n := by
  intro R
  induction R using Nat.strong_induction_on with
  | _ R ih =>
    intro i n a b hR hdef ha hb
    obtain ⟨a', rfl⟩ : ∃ a', a = a' + 1 := ⟨a - 1, by omega⟩
    obtain ⟨b', rfl⟩ : ∃ b', b = b' + 1 := ⟨b - 1, by omega⟩
    have hnd := definerIdx_mem hdef
    obtain ⟨hi, hidis, hin⟩ := ndefB_iff.mp hnd
    have hcongr := execStmts_congr (nb.unit i).code [] (semF nb a') (semF nb b')
      (fun m hm => by
        cases hdm : definerIdx nb m with
        | none => rw [semF_no_definer hdm, semF_no_definer hdm]
        | some j =>
          have hmref : m ∈ (nb.unit i).refs := by
            rw [(hwf i hi).2]
            exact hm
          have hedge : edgeP nb j i :=
            edgeB_iff.mpr ⟨hi, hidis, m, hmref, definerIdx_mem hdm⟩
          have hrj : rankOf nb j < rankOf nb i := rank_lt_of_edge hacy hedge
          exact ih (rankOf nb j) (by omega) j m a' b' le_rfl hdm (by omega) (by omega))
      (by simp)
    show semF nb (a' + 1) n = semF nb (b' + 1) n
    rcases hcongr with ⟨hn1, hn2⟩ | ⟨r1, r2, hr1, hr2, hagree⟩
    · simp [semF, hdef, hn1, hn2]
    · have hdefs : n ∈ defsFrom [] (nb.unit i).code := by
        have h1 := (hwf i hi).1
        have h2 : n ∈ (nb.unit i).defs := hin
        rw [h1] at h2
        exact h2
      simp [semF, hdef, hr1, hr2, hagree n hdefs]

theorem semF_stable (nb : Notebook) (hacy : AcyclicP nb) (hwf : WfP nb)
    {n : Name} {a b : Nat} (ha : nb.len ≤ a) (hb : nb.len ≤ b) :
    semF nb a n = semF nb b n := by
  cases hdef : definerIdx nb n with
  | none => rw [semF_no_definer hdef, semF_no_definer hdef]
  | some i =>
    have hi : i < nb.len := (ndefB_iff.mp (definerIdx_mem hdef)).1
    have hr := rank_lt_len hacy hi
    exact semF_stable_aux nb hacy hwf (rankOf nb i) i n a b le_rfl hdef
      (by omega) (by omega)

/-- Semantic characterization of `semW` at a defined name. -/
theorem semW_run (nb : Notebook) (hacy : AcyclicP nb) (hwf : WfP nb)
    {n : Name} {i : Nat} (hdef : definerIdx nb n = some i) :
    semW nb n =
      match execStmts (semW nb) (nb.unit i).code with
      | none => none
      | some l => l n := by
  have h1 : semW nb n = semF nb (nb.len + 1) n :=
    semF_stable nb hacy hwf le_rfl (by omega)
  rw [h1]
  simp only [semF, hdef]
  rfl

/-- Green execution: all live units resolve and run without fault. -/
def GreenP (nb : Notebook) : Prop :=
  ∀ v, v < nb.len → (nb.unit v).status ≠ .disabled →
    (∀ n ∈ (nb.unit v).refs, (semW nb n).isSome = true) ∧
      (execStmts (semW nb) (nb.unit v).code).isSome = true

theorem greenB_to {nb : Notebook} (h : greenB nb = true) : GreenP nb := by
  intro v hv hd
  have h2 := List.all_eq_true.mp h v (List.mem_range.mpr hv)
  simp only [Bool.or_eq_true, decide_eq_true_eq, Bool.and_eq_true,
    List.all_eq_true] at h2
  rcases h2 with h2 | ⟨hrefs, hexec⟩
  · exact absurd h2 hd
  · exact ⟨fun n hn => hrefs n hn, hexec⟩

/-! ### Scheduling pass: step and fold lemmas -/

theorem unit_markStatus {i : Nat} {st : UStatus} {nb : Notebook} {j : Nat} :
    (markStatus i st nb).unit j =
      if j = i then
        ⟨(nb.unit i).code, (nb.unit i).defs, (nb.unit i).refs, st, (nb.unit i).output⟩
      else nb.unit j := rfl

theorem unit_publishAt {g : Notebook} {v : Nat} {l : Env} {nb : Notebook} {j : Nat} :
    (publishAt g v l nb).unit j =
      if j = v then
        ⟨(nb.unit v).code, (nb.unit v).defs, (nb.unit v).refs, .idle,
          (g.unit v).defs.filterMap (fun n => (l n).map (fun x => (n, x)))⟩
      else nb.unit j := by
  by_cases hj : j = v
  · subst hj
    simp [publishAt]
  · simp [publishAt, hj]

theorem env_publishAt {g : Notebook} {v : Nat} {l : Env} {nb : Notebook} {n : Name} :
    (publishAt g v l nb).env n =
      if n ∈ (g.unit v).defs then l n else nb.env n := rfl

/-- Branch analysis of one pass step. -/
theorem stepUnit_cases (g nb : Notebook) (skip : Finset Nat) (v : Nat) :
    (v ∈ skip ∧ stepUnit g nb skip v = (markStatus v .stale nb, skip, .skipped v)) ∨
    (v ∉ skip ∧ (g.unit v).refs.all (fun n => (nb.env n).isSome) = true ∧
      ∃ l, execStmts nb.env (g.unit v).code = some l ∧
        stepUnit g nb skip v = (publishAt g v l nb, skip, .ran v)) ∨
    (v ∉ skip ∧ (g.unit v).refs.all (fun n => (nb.env n).isSome) = true ∧
      execStmts nb.env (g.unit v).code = none ∧
      stepUnit g nb skip v =
        (markStatus v (.error .runtimeErr) nb, skip ∪ strictDescF g {v}, .faulted v)) ∨
    (v ∉ skip ∧ (g.unit v).refs.all (fun n => (nb.env n).isSome) = false ∧
      stepUnit g nb skip v =
        (markStatus v .stale nb, skip ∪ strictDescF g {v}, .unresolvedRef v)) := by
  by_cases hs : v ∈ skip
  · exact Or.inl ⟨hs, by simp [stepUnit, hs]⟩
  · by_cases hr : (g.unit v).refs.all (fun n => (nb.env n).isSome) = true
    · cases hx : execStmts nb.env (g.unit v).code with
      | some l =>
        refine Or.inr (Or.inl ⟨hs, hr, l, rfl, ?_⟩)
        simp only [stepUnit, if_neg hs, if_pos hr, hx]
      | none =>
        refine Or.inr (Or.inr (Or.inl ⟨hs, hr, rfl, ?_⟩))
        simp only [stepUnit, if_neg hs, if_pos hr, hx]
    · refine Or.inr (Or.inr (Or.inr ⟨hs, by simpa using hr, ?_⟩))
      simp only [stepUnit, if_neg hs]
      rw [if_neg hr]

theorem stepUnit_len (g nb : Notebook) (skip : Finset Nat) (v : Nat) :
    (stepUnit g nb skip v).1.len = nb.len := by
  rcases stepUnit_cases g nb skip v with ⟨_, h⟩ | ⟨_, _, _, _, h⟩ | ⟨_, _, _, h⟩ | ⟨_, _, h⟩ <;>
    rw [h] <;> rfl

theorem stepUnit_unit_ne (g nb : Notebook) (skip : Finset Nat) (v j : Nat)
    (hj : j ≠ v) : (stepUnit g nb skip v).1.unit j = nb.unit j := by
  rcases stepUnit_cases g nb skip v with ⟨_, h⟩ | ⟨_, _, l, _, h⟩ | ⟨_, _, _, h⟩ | ⟨_, _, h⟩ <;>
    rw [h] <;> simp [unit_markStatus, unit_publishAt, hj]

theorem stepUnit_uData (g nb : Notebook) (skip : Finset Nat) (v j : Nat) :
    ((stepUnit g nb skip v).1.unit j).code = (nb.unit j).code ∧
    ((stepUnit g nb skip v).1.unit j).defs = (nb.unit j).defs ∧
    ((stepUnit g nb skip v).1.unit j).refs = (nb.unit j).refs := by
  by_cases hj : j = v
  · subst hj
    rcases stepUnit_cases g nb skip j with ⟨_, h⟩ | ⟨_, _, l, _, h⟩ | ⟨_, _, _, h⟩ | ⟨_, _, h⟩ <;>
      rw [h] <;> simp [unit_markStatus, unit_publishAt]
  · rw [stepUnit_unit_ne g nb skip v j hj]
    exact ⟨rfl, rfl, rfl⟩

theorem stepUnit_env_ne (g nb : Notebook) (skip : Finset Nat) (v : Nat) {m : Name}
    (hm : m ∉ (g.unit v).defs) : (stepUnit g nb skip v).1.env m = nb.env m := by
  rcases stepUnit_cases g nb skip v with ⟨_, h⟩ | ⟨_, _, l, _, h⟩ | ⟨_, _, _, h⟩ | ⟨_, _, h⟩ <;>
    rw [h]
  · rfl
  · simp [env_publishAt, hm]
  · rfl
  · rfl

theorem stepUnit_evUnit (g nb : Notebook) (skip : Finset Nat) (v : Nat) :
    evUnit (stepUnit g nb skip v).2.2 = v := by
  rcases stepUnit_cases g nb skip v with ⟨_, h⟩ | ⟨_, _, l, _, h⟩ | ⟨_, _, _, h⟩ | ⟨_, _, h⟩ <;>
    rw [h] <;> rfl

theorem stepUnit_skip_mono (g nb : Notebook) (skip : Finset Nat) (v : Nat) :
    skip ⊆ (stepUnit g nb skip v).2.1 := by
  rcases stepUnit_cases g nb skip v with ⟨_, h⟩ | ⟨_, _, l, _, h⟩ | ⟨_, _, _, h⟩ | ⟨_, _, h⟩ <;>
    rw [h]
  · exact fun x hx => Finset.mem_union_left _ hx
  · exact fun x hx => Finset.mem_union_left _ hx

theorem runUnits_len (g : Notebook) :
    ∀ (order : List Nat) (nb : Notebook) (skip : Finset Nat),
      (runUnits g nb order skip).1.len = nb.len
  | [], _, _ => rfl
  | v :: rest, nb, skip => by
    show (runUnits g (stepUnit g nb skip v).1 rest (stepUnit g nb skip v).2.1).1.len = nb.len
    rw [runUnits_len g rest _ _, stepUnit_len]

theorem runUnits_evs_units (g : Notebook) :
    ∀ (order : List Nat) (nb : Notebook) (skip : Finset Nat),
      ((runUnits g nb order skip).2).map evUnit = order
  | [], _, _ => rfl
  | v :: rest, nb, skip => by
    show evUnit (stepUnit g nb skip v).2.2 ::
        ((runUnits g (stepUnit g nb skip v).1 rest (stepUnit g nb skip v).2.1).2).map evUnit =
      v :: rest
    rw [stepUnit_evUnit, runUnits_evs_units g rest _ _]

theorem runUnits_unit_frame (g : Notebook) :
    ∀ (order : List Nat) (nb : Notebook) (skip : Finset Nat) (j : Nat), j ∉ order →
      (runUnits g nb order skip).1.unit j = nb.unit j
  | [], _, _, _, _ => rfl
  | v :: rest, nb, skip, j, hj => by
    have hjv : j ≠ v := fun he => hj (he ▸ List.mem_cons_self v rest)
    have hjr : j ∉ rest := fun hm => hj (List.mem_cons_of_mem v hm)
    show (runUnits g (stepUnit g nb skip v).1 rest (stepUnit g nb skip v).2.1).1.unit j = nb.unit j
    rw [runUnits_unit_frame g rest _ _ j hjr, stepUnit_unit_ne g nb skip v j hjv]

theorem runUnits_uData (g : Notebook) :
    ∀ (order : List Nat) (nb : Notebook) (skip : Finset Nat) (j : Nat),
      ((runUnits g nb order skip).1.unit j).code = (nb.unit j).code ∧
      ((runUnits g nb order skip).1.unit j).defs = (nb.unit j).defs ∧
      ((runUnits g nb order skip).1.unit j).refs = (nb.unit j).refs
  | [], _, _, _ => ⟨rfl, rfl, rfl⟩
  | v :: rest, nb, skip, j => by
    have h1 := runUnits_uData g rest (stepUnit g nb skip v).1 (stepUnit g nb skip v).2.1 j
    have h2 := stepUnit_uData g nb skip v j
    exact ⟨h1.1.trans h2.1, h1.2.1.trans h2.2.1, h1.2.2.trans h2.2.2⟩

theorem runUnits_env_frame (g : Notebook) :
    ∀ (order : List Nat) (nb : Notebook) (skip : Finset Nat) (m : Name),
      (∀ v, PassEv.ran v ∈ (runUnits g nb order skip).2 → m ∉ (g.unit v).defs) →
      (runUnits g nb order skip).1.env m = nb.env m
  | [], _, _, _, _ => rfl
  | v :: rest, nb, skip, m, h => by
    have hrest : (runUnits g (stepUnit g nb skip v).1 rest (stepUnit g nb skip v).2.1).1.env m =
        (stepUnit g nb skip v).1.env m := by
      refine runUnits_env_frame g rest _ _ m ?_
      intro w hw
      exact h w (List.mem_cons_of_mem _ hw)
    rcases stepUnit_cases g nb skip v with ⟨_, hs⟩ | ⟨_, _, l, _, hs⟩ | ⟨_, _, _, hs⟩ | ⟨_, _, hs⟩
    · exact hrest.trans (by rw [hs]; rfl)
    · refine hrest.trans ?_
      have hv : m ∉ (g.unit v).defs := by
        refine h v ?_
        show PassEv.ran v ∈ (stepUnit g nb skip v).2.2 ::
          (runUnits g (stepUnit g nb skip v).1 rest (stepUnit g nb skip v).2.1).2
        rw [hs]
        exact List.mem_cons_self _ _
      rw [hs]
      simp [env_publishAt, hv]
    · exact hrest.trans (by rw [hs]; rfl)
    · exact hrest.trans (by rw [hs]; rfl)

theorem runUnits_skip_run (g : Notebook) :
    ∀ (order : List Nat) (nb : Notebook) (skip : Finset Nat) (v : Nat),
      v ∈ order → v ∈ skip → PassEv.skipped v ∈ (runUnits g nb order skip).2
  | [], _, _, _, hv, _ => absurd hv (List.not_mem_nil _)
  | x :: rest, nb, skip, v, hv, hsk => by
    show PassEv.skipped v ∈ (stepUnit g nb skip x).2.2 ::
      (runUnits g (stepUnit g nb skip x).1 rest (stepUnit g nb skip x).2.1).2
    by_cases hvx : v = x
    · subst hvx
      rcases stepUnit_cases g nb skip v with ⟨_, hs⟩ | ⟨hns, _⟩ | ⟨hns, _⟩ | ⟨hns, _⟩
      · rw [hs]
        exact List.mem_cons_self _ _
      · exact absurd hsk hns
      · exact absurd hsk hns
      · exact absurd hsk hns
    · have hvr : v ∈ rest := by
        rcases List.mem_cons.mp hv with he | hm
        · exact absurd he hvx
        · exact hm
      exact List.mem_cons_of_mem _
        (runUnits_skip_run g rest _ _ v hvr (stepUnit_skip_mono g nb skip x hsk))

theorem runUnits_outcome (g : Notebook) :
    ∀ (order : List Nat) (nb : Notebook) (skip : Finset Nat) (v : Nat),
      order.Nodup → v ∈ order →
      (PassEv.skipped v ∈ (runUnits g nb order skip).2 ∧
        ((runUnits g nb order skip).1.unit v).status = .stale ∧
        ((runUnits g nb order skip).1.unit v).output = (nb.unit v).output) ∨
      (PassEv.ran v ∈ (runUnits g nb order skip).2 ∧
        ((runUnits g nb order skip).1.unit v).status = .idle) ∨
      (PassEv.faulted v ∈ (runUnits g nb order skip).2 ∧
        ((runUnits g nb order skip).1.unit v).status = .error .runtimeErr ∧
        ((runUnits g nb order skip).1.unit v).output = (nb.unit v).output) ∨
      (PassEv.unresolvedRef v ∈ (runUnits g nb order skip).2 ∧
        ((runUnits g nb order skip).1.unit v).status = .stale ∧
        ((runUnits g nb order skip).1.unit v).output = (nb.unit v).output)
  | [], _, _, v, _, hv => absurd hv (List.not_mem_nil v)
  | x :: rest, nb, skip, v, hnd, hv => by
    have hndr : rest.Nodup := (List.nodup_cons.mp hnd).2
    by_cases hvx : v = x
    · subst hvx
      have hvr : v ∉ rest := (List.nodup_cons.mp hnd).1
      have hframe := runUnits_unit_frame g rest (stepUnit g nb skip v).1
        (stepUnit g nb skip v).2.1 v hvr
      have hhead : (runUnits g nb (v :: rest) skip).2 =
          (stepUnit g nb skip v).2.2 ::
            (runUnits g (stepUnit g nb skip v).1 rest (stepUnit g nb skip v).2.1).2 := rfl
      have hfin : (runUnits g nb (v :: rest) skip).1.unit v =
          (stepUnit g nb skip v).1.unit v := hframe
      rcases stepUnit_cases g nb skip v with ⟨_, hs⟩ | ⟨_, _, l, _, hs⟩ |
        ⟨_, _, _, hs⟩ | ⟨_, _, hs⟩
      · refine Or.inl ⟨?_, ?_, ?_⟩
        · rw [hhead, hs]
          exact List.mem_cons_self _ _
        · rw [hfin, hs]
          simp [unit_markStatus]
        · rw [hfin, hs]
          simp [unit_markStatus]
      · refine Or.inr (Or.inl ⟨?_, ?_⟩)
        · rw [hhead, hs]
          exact List.mem_cons_self _ _
        · rw [hfin, hs]
          simp [unit_publishAt]
      · refine Or.inr (Or.inr (Or.inl ⟨?_, ?_, ?_⟩))
        · rw [hhead, hs]
          exact List.mem_cons_self _ _
        · rw [hfin, hs]
          simp [unit_markStatus]
        · rw [hfin, hs]
          simp [unit_markStatus]
      · refine Or.inr (Or.inr (Or.inr ⟨?_, ?_, ?_⟩))
        · rw [hhead, hs]
          exact List.mem_cons_self _ _
        · rw [hfin, hs]
          simp [unit_markStatus]
        · rw [hfin, hs]
          simp [unit_markStatus]
    · have hvr : v ∈ rest := by
        rcases List.mem_cons.mp hv with he | hm
        · exact absurd he hvx
        · exact hm
      have hout : ((stepUnit g nb skip x).1.unit v).output = (nb.unit v).output := by
        rw [stepUnit_unit_ne g nb skip x v hvx]
      have ih := runUnits_outcome g rest (stepUnit g nb skip x).1
        (stepUnit g nb skip x).2.1 v hndr hvr
      rw [hout] at ih
      rcases ih with ⟨h1, h2, h3⟩ | ⟨h1, h2⟩ | ⟨h1, h2, h3⟩ | ⟨h1, h2, h3⟩
      · exact Or.inl ⟨List.mem_cons_of_mem _ h1, h2, h3⟩
      · exact Or.inr (Or.inl ⟨List.mem_cons_of_mem _ h1, h2⟩)
      · exact Or.inr (Or.inr (Or.inl ⟨List.mem_cons_of_mem _ h1, h2, h3⟩))
      · exact Or.inr (Or.inr (Or.inr ⟨List.mem_cons_of_mem _ h1, h2, h3⟩))

theorem runUnits_fault_contain (g : Notebook) (hacy : AcyclicP g) :
    ∀ (order : List Nat) (nb : Notebook) (skip : Finset Nat) (v : Nat),
      List.Sorted (fun a b => keyOf g a ≤ keyOf g b) order →
      PassEv.faulted v ∈ (runUnits g nb order skip).2 →
      ∀ w, w ∈ strictDescF g {v} → w ∈ order →
        PassEv.skipped w ∈ (runUnits g nb order skip).2
  | [], _, _, _, _, hf, _, _, _ => absurd hf (List.not_mem_nil _)
  | x :: rest, nb, skip, v, hsort, hf, w, hw, hwo => by
    obtain ⟨hpair, hsort'⟩ := List.sorted_cons.mp hsort
    have hhead : (runUnits g nb (x :: rest) skip).2 =
        (stepUnit g nb skip x).2.2 ::
          (runUnits g (stepUnit g nb skip x).1 rest (stepUnit g nb skip x).2.1).2 := rfl
    rw [hhead] at hf
    rcases List.mem_cons.mp hf with he | hm
    · -- the head event is the fault: x = v
      rcases stepUnit_cases g nb skip x with ⟨_, hs⟩ | ⟨_, _, l, _, hs⟩ |
        ⟨_, _, _, hs⟩ | ⟨_, _, hs⟩ <;> rw [hs] at he <;>
        simp only at he
      -- only the faulted branch survives
      · exact absurd he (by simp)
      · exact absurd he (by simp)
      · have hxv : x = v := by
          have := he
          simp only [PassEv.faulted.injEq] at this
          omega
        subst hxv
        have hwx : w ≠ x := by
          intro hwe
          subst hwe
          exact hacy w (mem_strictDescF_single.mp hw)
        have hwr : w ∈ rest := by
          rcases List.mem_cons.mp hwo with he2 | hm2
          · exact absurd he2 hwx
          · exact hm2
        have hwskip : w ∈ (stepUnit g nb skip x).2.1 := by
          rw [hs]
          exact Finset.mem_union_right _ hw
        rw [hhead]
        exact List.mem_cons_of_mem _
          (runUnits_skip_run g rest _ _ w hwr hwskip)
      · exact absurd he (by simp)
    · -- the fault happens in the tail
      have hvr : v ∈ rest := by
        have hmap := runUnits_evs_units g rest (stepUnit g nb skip x).1
          (stepUnit g nb skip x).2.1
        have : evUnit (PassEv.faulted v) ∈
            ((runUnits g (stepUnit g nb skip x).1 rest (stepUnit g nb skip x).2.1).2).map evUnit :=
          List.mem_map_of_mem evUnit hm
        rw [hmap] at this
        exact this
      have hwx : w ≠ x := by
        intro hwe
        subst hwe
        have hkey : keyOf g w ≤ keyOf g v := hpair v hvr
        have hTvw : Relation.TransGen (edgeP g) v w := mem_strictDescF_single.mp hw
        have := key_lt_of_transGen hacy hTvw
        omega
      have hwr : w ∈ rest := by
        rcases List.mem_cons.mp hwo with he2 | hm2
        · exact absurd he2 hwx
        · exact hm2
      rw [hhead]
      exact List.mem_cons_of_mem _
        (runUnits_fault_contain g hacy rest _ _ v hsort' hm w hw hwr)

theorem semW_isSome_definer {nb : Notebook} {n : Name}
    (h : (semW nb n).isSome = true) : ∃ i, definerIdx nb n = some i := by
  cases hd : definerIdx nb n with
  | none =>
    have h2 : semW nb n = none := semF_no_definer hd
    rw [h2] at h
    exact absurd h (by simp)
  | some i => exact ⟨i, rfl⟩

/-- Master lemma for a green pass: a key-sorted set of live units whose
remaining inputs already match the denotation runs in full, and leaves the
Runtime Environment equal to the denotation on every defined name. -/
theorem runUnits_green (g : Notebook) (hacy : AcyclicP g) (hu : UniqueDefsP g)
    (hwf : WfP g) :
    ∀ (order : List Nat) (nb : Notebook),
      List.Sorted (fun a b => keyOf g a ≤ keyOf g b) order →
      order.Nodup →
      (∀ v ∈ order, v < g.len ∧ (g.unit v).status ≠ .disabled) →
      (∀ v ∈ order, (∀ n ∈ (g.unit v).refs, (semW g n).isSome = true) ∧
        (execStmts (semW g) (g.unit v).code).isSome = true) →
      (∀ m j, definerIdx g m = some j → j ∉ order → nb.env m = semW g m) →
      (∀ j, (nb.unit j).code = (g.unit j).code ∧ (nb.unit j).defs = (g.unit j).defs ∧
        (nb.unit j).refs = (g.unit j).refs) →
      (runUnits g nb order ∅).2 = order.map PassEv.ran ∧
      (∀ m, definerIdx g m = none → (runUnits g nb order ∅).1.env m = nb.env m) ∧
      (∀ m j, definerIdx g m = some j → (runUnits g nb order ∅).1.env m = semW g m) ∧
      (∀ j, j ∉ order → (runUnits g nb order ∅).1.unit j = nb.unit j) ∧
      (∀ v ∈ order, ((runUnits g nb order ∅).1.unit v).status = .idle)
  | [], nb, _, _, _, _, hready, _ =>
    ⟨rfl, fun _ _ => rfl, fun m j hd => hready m j hd (List.not_mem_nil j),
      fun _ _ => rfl, fun v hv => absurd hv (List.not_mem_nil v)⟩
  | v :: rest, nb, hsort, hnd, horder, hgreen, hready, hdata => by
    obtain ⟨hpair, hsort'⟩ := List.sorted_cons.mp hsort
    obtain ⟨hvr, hndr⟩ := List.nodup_cons.mp hnd
    obtain ⟨hvlen, hvdis⟩ := horder v (List.mem_cons_self v rest)
    -- every reference of `v` is already denotation-correct in `nb.env`
    have hrefs : ∀ n ∈ (g.unit v).refs, nb.env n = semW g n := by
      intro n hn
      have hsome := (hgreen v (List.mem_cons_self v rest)).1 n hn
      obtain ⟨j, hj⟩ := semW_isSome_definer hsome
      have hedge : edgeP g j v := edgeB_iff.mpr ⟨hvlen, hvdis, n, hn, definerIdx_mem hj⟩
      have hjno : j ∉ v :: rest := by
        intro hjmem
        rcases List.mem_cons.mp hjmem with he | hm
        · subst he
          exact hacy j (Relation.TransGen.single hedge)
        · have h1 : keyOf g v ≤ keyOf g j := hpair j hm
          have h2 : keyOf g j < keyOf g v :=
            key_lt_of_transGen hacy (Relation.TransGen.single hedge)
          omega
      exact hready n j hj hjno
    have hrefsall : (g.unit v).refs.all (fun n => (nb.env n).isSome) = true := by
      apply List.all_eq_true.mpr
      intro n hn
      rw [hrefs n hn]
      exact (hgreen v (List.mem_cons_self v rest)).1 n hn
    -- execution of `v` agrees with the denotation
    have hrf : (g.unit v).refs = analyzeRefs (g.unit v).code := (hwf v hvlen).2
    have hdf : (g.unit v).defs = analyzeDefs (g.unit v).code := (hwf v hvlen).1
    have hcongr := execStmts_congr (g.unit v).code [] nb.env (semW g)
      (fun n hn => hrefs n (by rw [hrf]; exact hn)) (by simp)
    have hexecsome := (hgreen v (List.mem_cons_self v rest)).2
    rcases hcongr with ⟨_, h2n⟩ | ⟨r1, r2, hr1, hr2, hag⟩
    · rw [h2n] at hexecsome
      exact absurd hexecsome (by simp)
    -- the step publishes
    have hstep : stepUnit g nb ∅ v = (publishAt g v r1 nb, ∅, .ran v) := by
      simp only [stepUnit, Finset.not_mem_empty, if_neg, if_false, hrefsall, if_true, hr1]
    have hrun : runUnits g nb (v :: rest) ∅ =
        ((runUnits g (publishAt g v r1 nb) rest ∅).1,
          PassEv.ran v :: (runUnits g (publishAt g v r1 nb) rest ∅).2) := by
      show ((runUnits g (stepUnit g nb ∅ v).1 rest (stepUnit g nb ∅ v).2.1).1,
          (stepUnit g nb ∅ v).2.2 ::
            (runUnits g (stepUnit g nb ∅ v).1 rest (stepUnit g nb ∅ v).2.1).2) = _
      rw [hstep]
    -- denotation value of the names `v` defines
    have hpub : ∀ m ∈ (g.unit v).defs, r1 m = semW g m := by
      intro m hm
      have hndv : ndefB g v m = true := ndefB_iff.mpr ⟨hvlen, hvdis, hm⟩
      have hdm : definerIdx g m = some v := definerIdx_eq hu hndv
      have hrw := semW_run g hacy hwf hdm
      rw [hr2] at hrw
      have hagm : r1 m = r2 m := by
        apply hag
        rw [hdf] at hm
        exact hm
      rw [hagm, hrw]
    -- hypotheses for the tail
    have hready' : ∀ m j, definerIdx g m = some j → j ∉ rest →
        (publishAt g v r1 nb).env m = semW g m := by
      intro m j hd hj
      by_cases hm : m ∈ (g.unit v).defs
      · have henv : (publishAt g v r1 nb).env m = r1 m := by
          rw [env_publishAt, if_pos hm]
        rw [henv]
        exact hpub m hm
      · have henv : (publishAt g v r1 nb).env m = nb.env m := by
          rw [env_publishAt, if_neg hm]
        rw [henv]
        refine hready m j hd ?_
        intro hjmem
        rcases List.mem_cons.mp hjmem with he | hmem
        · subst he
          exact hm (ndefB_iff.mp (definerIdx_mem hd)).2.2
        · exact hj hmem
    have hdata' : ∀ j, ((publishAt g v r1 nb).unit j).code = (g.unit j).code ∧
        ((publishAt g v r1 nb).unit j).defs = (g.unit j).defs ∧
        ((publishAt g v r1 nb).unit j).refs = (g.unit j).refs := by
      intro j
      rw [unit_publishAt]
      by_cases hj : j = v
      · subst hj
        simp only [if_pos rfl]
        exact hdata j
      · rw [if_neg hj]
        exact hdata j
    have ih := runUnits_green g hacy hu hwf rest (publishAt g v r1 nb) hsort' hndr
      (fun w hw => horder w (List.mem_cons_of_mem v hw))
      (fun w hw => hgreen w (List.mem_cons_of_mem v hw)) hready' hdata'
    obtain ⟨iha, ihb, ihc, ihd, ihe⟩ := ih
    refine ⟨?_, ?_, ?_, ?_, ?_⟩
    · rw [hrun]
      simp [iha]
    · intro m hd
      rw [hrun]
      have h1 := ihb m hd
      have h2 : (publishAt g v r1 nb).env m = nb.env m := by
        rw [env_publishAt, if_neg]
        intro hm
        have hndv : ndefB g v m = true := ndefB_iff.mpr ⟨hvlen, hvdis, hm⟩
        rw [definerIdx_eq hu hndv] at hd
        cases hd
      simpa [h2] using h1
    · intro m j hd
      rw [hrun]
      exact ihc m j hd
    · intro j hj
      have hjv : j ≠ v := fun he => hj (he ▸ List.mem_cons_self v rest)
      have hjr : j ∉ rest := fun hm => hj (List.mem_cons_of_mem v hm)
      rw [hrun]
      have h1 := ihd j hjr
      have h2 : (publishAt g v r1 nb).unit j = nb.unit j := by
        rw [unit_publishAt, if_neg hjv]
      simpa [h2] using h1
    · intro w hw
      rcases List.mem_cons.mp hw with he | hm
      · subst he
        rw [hrun]
        have h1 := ihd w hvr
        have h2 : ((publishAt g w r1 nb).unit w).status = .idle := by
          rw [unit_publishAt, if_pos rfl]
      -- assemble
        simpa [h1] using h2
      · rw [hrun]
        exact ihe w hm

/-! ### Structural recompute, targets, ordering -/

theorem strictDescF_empty (nb : Notebook) : strictDescF nb ∅ = ∅ := by
  unfold strictDescF relDesc
  have h1 : relNbrs nb.len (edgeB nb) ∅ = ∅ := by
    simp [relNbrs]
  rw [h1]
  exact relStep_fix_iter nb.len (edgeB nb) ∅ (relStep_empty nb.len (edgeB nb)) nb.len

theorem cycleSetF_empty {nb : Notebook} (hacy : AcyclicP nb) : cycleSetF nb = ∅ := by
  ext i
  simp only [cycleSetF, Finset.mem_filter, Finset.mem_range, Finset.not_mem_empty,
    iff_false, not_and]
  intro _ hmem
  exact hacy i (mem_strictDescF_single.mp hmem)

theorem conflictCore_empty {nb : Notebook} (hu : UniqueDefsP nb) :
    conflictCore nb = ∅ := by
  ext j
  simp only [conflictCore, Finset.mem_filter, Finset.mem_range,
    Finset.not_mem_empty, iff_false, not_and]
  intro hj hdis
  intro hany
  obtain ⟨n, hn, hc⟩ := List.any_eq_true.mp hany
  have hcard : 1 < (definersOf nb n).card := by
    simpa [conflictedB] using hc
  obtain ⟨a, ha, b, hb, hab⟩ := Finset.one_lt_card.mp hcard
  have ha2 : ndefB nb a n = true := (Finset.mem_filter.mp ha).2
  have hb2 : ndefB nb b n = true := (Finset.mem_filter.mp hb).2
  exact hab (hu n a b ha2 hb2)

theorem conflictSetF_empty {nb : Notebook} (hu : UniqueDefsP nb) :
    conflictSetF nb = ∅ := by
  rw [conflictSetF, conflictCore_empty hu, strictDescF_empty]
  simp

theorem recomputeStatus_id {nb : Notebook} {i : Nat} (hacy : AcyclicP nb)
    (hu : UniqueDefsP nb) (hse : structErr (nb.unit i).status = false) :
    recomputeStatus nb i = (nb.unit i).status := by
  unfold recomputeStatus
  rw [cycleSetF_empty hacy, conflictSetF_empty hu]
  simp only [Finset.not_mem_empty, if_false, hse]
  split
  · exact (by assumption : (nb.unit i).status = .disabled).symm
  · rfl

theorem recompute_clean {nb : Notebook} (hacy : AcyclicP nb) (hu : UniqueDefsP nb)
    (hs : ∀ i, structErr (nb.unit i).status = false) :
    (structuralRecompute nb).1 = nb ∧ (structuralRecompute nb).2 = ∅ := by
  constructor
  · have hunit : (structuralRecompute nb).1.unit = nb.unit := by
      funext i
      show (⟨(nb.unit i).code, (nb.unit i).defs, (nb.unit i).refs,
        recomputeStatus nb i, (nb.unit i).output⟩ : CodeUnit) = nb.unit i
      rw [recomputeStatus_id hacy hu (hs i)]
    show (⟨nb.len, (structuralRecompute nb).1.unit, nb.env⟩ : Notebook) = nb
    rw [hunit]
  · ext i
    simp only [structuralRecompute, Finset.mem_filter, Finset.mem_range,
      Finset.not_mem_empty, iff_false, not_and]
    intro _ hse
    exact absurd hse (by simp [hs i])

theorem mem_passTargets {nb : Notebook} {base : Finset Nat} {j : Nat} :
    j ∈ passTargets nb base ↔
      j < nb.len ∧ j ∈ base ∧ schedulableB nb j = true := by
  simp [passTargets, List.mem_filter, List.mem_range, and_assoc]

theorem passTargets_nodup (nb : Notebook) (base : Finset Nat) :
    (passTargets nb base).Nodup :=
  (List.nodup_range nb.len).filter _

theorem orderOf_perm (nb : Notebook) (targets : List Nat) :
    List.Perm (orderOf nb targets) targets :=
  List.perm_insertionSort _ _

theorem orderOf_sorted (nb : Notebook) (targets : List Nat) :
    List.Sorted (fun a b => keyOf nb a ≤ keyOf nb b) (orderOf nb targets) := by
  haveI h1 : IsTotal Nat (fun a b => keyOf nb a ≤ keyOf nb b) :=
    ⟨fun a b => Nat.le_total _ _⟩
  haveI h2 : IsTrans Nat (fun a b => keyOf nb a ≤ keyOf nb b) :=
    ⟨fun _ _ _ hab hbc => le_trans hab hbc⟩
  exact List.sorted_insertionSort _ _

theorem orderOf_nodup (nb : Notebook) (targets : List Nat) (h : targets.Nodup) :
    (orderOf nb targets).Nodup :=
  ((orderOf_perm nb targets).nodup_iff).mpr h

theorem mem_orderOf {nb : Notebook} {targets : List Nat} {j : Nat} :
    j ∈ orderOf nb targets ↔ j ∈ targets :=
  (orderOf_perm nb targets).mem_iff

/-! ### Graph-data equivalence and the cone lemma -/

/-- Two notebook states with identical unit bodies, def/ref sets and
disabled-flags: all graph-derived notions coincide. -/
def LiveEq (nb1 nb2 : Notebook) : Prop :=
  nb1.len = nb2.len ∧ ∀ j,
    (nb1.unit j).code = (nb2.unit j).code ∧
    (nb1.unit j).defs = (nb2.unit j).defs ∧
    (nb1.unit j).refs = (nb2.unit j).refs ∧
    ((nb1.unit j).status = .disabled ↔ (nb2.unit j).status = .disabled)

theorem LiveEq.ndefB_eq {nb1 nb2 : Notebook} (h : LiveEq nb1 nb2) (j : Nat) (n : Name) :
    ndefB nb1 j n = ndefB nb2 j n := by
  unfold ndefB
  rw [h.1, (h.2 j).2.1, decide_eq_decide.mpr (h.2 j).2.2.2]

theorem LiveEq.edgeB_eq {nb1 nb2 : Notebook} (h : LiveEq nb1 nb2) :
    edgeB nb1 = edgeB nb2 := by
  funext j i
  unfold edgeB
  rw [h.1, (h.2 i).2.2.1, decide_eq_decide.mpr (h.2 i).2.2.2]
  have hfun : (fun n => ndefB nb1 j n) = (fun n => ndefB nb2 j n) :=
    funext (h.ndefB_eq j)
  rw [hfun]

theorem LiveEq.strictDescF_eq {nb1 nb2 : Notebook} (h : LiveEq nb1 nb2)
    (S : Finset Nat) : strictDescF nb1 S = strictDescF nb2 S := by
  unfold strictDescF
  rw [h.1, h.edgeB_eq]

theorem LiveEq.strictAncF_eq {nb1 nb2 : Notebook} (h : LiveEq nb1 nb2)
    (S : Finset Nat) : strictAncF nb1 S = strictAncF nb2 S := by
  unfold strictAncF
  rw [h.1, show (fun j i => edgeB nb1 i j) = (fun j i => edgeB nb2 i j) from by
    rw [h.edgeB_eq]]

theorem LiveEq.rankOf_eq {nb1 nb2 : Notebook} (h : LiveEq nb1 nb2) (i : Nat) :
    rankOf nb1 i = rankOf nb2 i := by
  unfold rankOf
  rw [h.strictAncF_eq]

theorem LiveEq.keyOf_eq {nb1 nb2 : Notebook} (h : LiveEq nb1 nb2) (i : Nat) :
    keyOf nb1 i = keyOf nb2 i := by
  unfold keyOf
  rw [h.rankOf_eq, h.1]

theorem LiveEq.definerIdx_same {nb1 nb2 : Notebook} (h : LiveEq nb1 nb2) (n : Name) :
    definerIdx nb1 n = definerIdx nb2 n := by
  unfold definerIdx
  rw [h.1]
  congr 1
  funext j
  exact h.ndefB_eq j n

theorem LiveEq.semF_eq {nb1 nb2 : Notebook} (h : LiveEq nb1 nb2) :
    ∀ (k : Nat) (n : Name), semF nb1 k n = semF nb2 k n
  | 0, _ => rfl
  | k + 1, n => by
    have hfun : (fun m => semF nb1 k m) = (fun m => semF nb2 k m) :=
      funext (LiveEq.semF_eq h k)
    have hL : semF nb1 (k + 1) n =
        (match definerIdx nb1 n with
          | none => none
          | some i =>
            match execStmts (fun m => semF nb1 k m) (nb1.unit i).code with
            | none => none
            | some l => l n) := rfl
    have hR : semF nb2 (k + 1) n =
        (match definerIdx nb2 n with
          | none => none
          | some i =>
            match execStmts (fun m => semF nb2 k m) (nb2.unit i).code with
            | none => none
            | some l => l n) := rfl
    rw [hL, hR, h.definerIdx_same n, hfun]
    cases definerIdx nb2 n with
    | none => rfl
    | some i =>
      show (match execStmts (fun m => semF nb2 k m) (nb1.unit i).code with
          | none => none
          | some l => l n) =
        (match execStmts (fun m => semF nb2 k m) (nb2.unit i).code with
          | none => none
          | some l => l n)
      rw [(h.2 i).1]

theorem LiveEq.semW_eq {nb1 nb2 : Notebook} (h : LiveEq nb1 nb2) :
    semW nb1 = semW nb2 := by
  funext n
  show semF nb1 nb1.len n = semF nb2 nb2.len n
  rw [h.1, h.semF_eq]

theorem LiveEq.acyclic {nb1 nb2 : Notebook} (h : LiveEq nb1 nb2)
    (ha : AcyclicP nb2) : AcyclicP nb1 := by
  intro i hT
  refine ha i ?_
  have he : edgeP nb1 = edgeP nb2 := by
    unfold edgeP relP
    rw [h.edgeB_eq]
  rw [he] at hT
  exact hT

theorem LiveEq.uniqueDefs {nb1 nb2 : Notebook} (h : LiveEq nb1 nb2)
    (hu : UniqueDefsP nb2) : UniqueDefsP nb1 := by
  intro n j k hj hk
  rw [h.ndefB_eq] at hj hk
  exact hu n j k hj hk

theorem LiveEq.wf {nb1 nb2 : Notebook} (h : LiveEq nb1 nb2) (hw : WfP nb2) :
    WfP nb1 := by
  intro v hv
  rw [h.1] at hv
  obtain ⟨h1, h2⟩ := hw v hv
  refine ⟨?_, ?_⟩
  · rw [(h.2 v).2.1, (h.2 v).1, h1]
  · rw [(h.2 v).2.2.1, (h.2 v).1, h2]

/-- Cone lemma: a unit outside the edited unit's descendant cone keeps its
denotational values across the edit (the two graphs agree except at `u`). -/
theorem semW_cone (A B : Notebook) (u : Nat) (hlen : A.len = B.len)
    (hsame : ∀ j, j ≠ u →
      (A.unit j).code = (B.unit j).code ∧ (A.unit j).defs = (B.unit j).defs ∧
      (A.unit j).refs = (B.unit j).refs ∧
      ((A.unit j).status = .disabled ↔ (B.unit j).status = .disabled))
    (hacyA : AcyclicP A) (hacyB : AcyclicP B) (huA : UniqueDefsP A)
    (hwfA : WfP A) (hwfB : WfP B)
    (hgreenB : ∀ v, v < B.len → (B.unit v).status ≠ .disabled →
      ∀ n ∈ (B.unit v).refs, (semW B n).isSome = true) :
    ∀ (R j : Nat), rankOf B j ≤ R → j ≠ u → j ∉ strictDescF B {u} →
      ∀ m, definerIdx B m = some j → semW A m = semW B m := by
  intro R
  induction R using Nat.strong_induction_on with
  | _ R ih =>
    intro j hR hju hjdesc m hdm
    have hndB := definerIdx_mem hdm
    obtain ⟨hjlen, hjdis, hjdefs⟩ := ndefB_iff.mp hndB
    obtain ⟨hcode, hdefs, hrefs, hdisiff⟩ := hsame j hju
    have hndA : ndefB A j m = true := by
      refine ndefB_iff.mpr ⟨by omega, ?_, ?_⟩
      · intro hd
        exact hjdis (hdisiff.mp hd)
      · rw [hdefs]
        exact hjdefs
    have hdmA : definerIdx A m = some j := definerIdx_eq huA hndA
    -- references of j agree between the two denotations
    have hrefagree : ∀ n ∈ refsFrom [] (B.unit j).code, semW A n = semW B n := by
      intro n hn
      have hnrefs : n ∈ (B.unit j).refs := by
        rw [(hwfB j hjlen).2]
        exact hn
      have hsome := hgreenB j hjlen hjdis n hnrefs
      obtain ⟨j2, hj2⟩ := semW_isSome_definer hsome
      have hedge : edgeP B j2 j :=
        edgeB_iff.mpr ⟨hjlen, hjdis, n, hnrefs, definerIdx_mem hj2⟩
      have hj2u : j2 ≠ u := by
        intro he
        subst he
        exact hjdesc (mem_strictDescF_single.mpr (Relation.TransGen.single hedge))
      have hj2desc : j2 ∉ strictDescF B {u} := by
        intro hmem
        exact hjdesc (mem_strictDescF_single.mpr
          ((mem_strictDescF_single.mp hmem).tail hedge))
      have hrank : rankOf B j2 < rankOf B j := rank_lt_of_edge hacyB hedge
      exact ih (rankOf B j2) (by omega) j2 le_rfl hj2u hj2desc n hj2
    have hcongr := execStmts_congr (B.unit j).code [] (semW A) (semW B)
      hrefagree (by simp)
    have hrwA := semW_run A hacyA hwfA hdmA
    have hrwB := semW_run B hacyB hwfB hdm
    rw [hcode] at hrwA
    rcases hcongr with ⟨h1, h2⟩ | ⟨r1, r2, hr1, hr2, hag⟩
    · rw [hrwA, hrwB, h1, h2]
    · rw [hrwA, hrwB, hr1, hr2]
      apply hag
      have : m ∈ analyzeDefs (B.unit j).code := by
        rw [← (hwfB j hjlen).1]
        exact hjdefs
      exact this

/-! ### Notebook construction and the from-scratch run -/

/-- Source parses (is a body). -/
def isCode : Src → Bool
  | .bad => false
  | .mkCode _ => true

/-- All sources of a notebook parse. -/
def allCodeB (srcs : List Src) : Bool := srcs.all isCode

theorem allCode_getD {srcs : List Src} {j : Nat} (h : allCodeB srcs = true)
    (hj : j < srcs.length) : ∃ stmts, srcs.getD j .bad = .mkCode stmts := by
  have hmem : srcs[j] ∈ srcs := List.getElem_mem hj
  have hc := List.all_eq_true.mp h _ hmem
  rw [List.getD_eq_getElem srcs .bad hj]
  cases he : srcs[j] with
  | bad =>
    rw [he] at hc
    exact absurd hc (by simp [isCode])
  | mkCode stmts => exact ⟨stmts, rfl⟩

theorem initNB_unit_code {srcs : List Src} {j : Nat} {stmts : List Stmt}
    (h : srcs.getD j .bad = .mkCode stmts) :
    (initNB srcs).unit j = mkUnit stmts .stale [] := by
  unfold initNB
  simp only [h]

theorem initNB_unit_bad {srcs : List Src} {j : Nat}
    (h : srcs.getD j .bad = .bad) :
    (initNB srcs).unit j = mkUnit [] (.error .syntaxErr) [] := by
  unfold initNB
  simp only [h]

theorem initNB_wf (srcs : List Src) : WfP (initNB srcs) := by
  intro v _
  cases h : srcs.getD v .bad with
  | bad =>
    rw [initNB_unit_bad h]
    exact ⟨rfl, rfl⟩
  | mkCode stmts =>
    rw [initNB_unit_code h]
    exact ⟨rfl, rfl⟩

theorem initNB_structErr (srcs : List Src) (i : Nat) :
    structErr ((initNB srcs).unit i).status = false := by
  cases h : srcs.getD i .bad with
  | bad => rw [initNB_unit_bad h]; rfl
  | mkCode stmts => rw [initNB_unit_code h]; rfl

theorem initNB_status_stale {srcs : List Src} {v : Nat} (hall : allCodeB srcs = true)
    (hv : v < srcs.length) : ((initNB srcs).unit v).status = .stale := by
  obtain ⟨stmts, h⟩ := allCode_getD hall hv
  rw [initNB_unit_code h]
  rfl

theorem schedulableB_not_disabled {nb : Notebook} {j : Nat}
    (h : schedulableB nb j = true) : (nb.unit j).status ≠ .disabled := by
  intro hd
  simp [schedulableB, hd] at h

theorem structErrSet_empty {nb : Notebook}
    (h : ∀ i, structErr (nb.unit i).status = false) : structErrSet nb = ∅ := by
  ext i
  simp [structErrSet, h i]

theorem upsertE_unit_ne {i : Nat} {stmts : List Stmt} {nb : Notebook} {j : Nat}
    (h : j ≠ i) : (upsertE i stmts nb).unit j = nb.unit j := by
  simp [upsertE, h]

theorem upsertE_unit_self {i : Nat} {stmts : List Stmt} {nb : Notebook} :
    (upsertE i stmts nb).unit i =
      mkUnit stmts (nb.unit i).status (nb.unit i).output := by
  simp [upsertE]

/-- A from-scratch run of an all-green notebook computes the denotation. -/
theorem runAll_green (srcs : List Src) (hall : allCodeB srcs = true)
    (hacy : acyclicB (initNB srcs) = true) (hu : uniqueDefsB (initNB srcs) = true)
    (hg : greenB (initNB srcs) = true) :
    (runAllNB srcs).len = srcs.length ∧
    (∀ m j, definerIdx (initNB srcs) m = some j →
      (runAllNB srcs).env m = semW (initNB srcs) m) ∧
    (∀ m, definerIdx (initNB srcs) m = none → (runAllNB srcs).env m = none) ∧
    (∀ v, v < srcs.length → ((runAllNB srcs).unit v).status = .idle) ∧
    (∀ j, ((runAllNB srcs).unit j).code = ((initNB srcs).unit j).code ∧
      ((runAllNB srcs).unit j).defs = ((initNB srcs).unit j).defs ∧
      ((runAllNB srcs).unit j).refs = ((initNB srcs).unit j).refs) ∧
    (∀ j, ¬ j < srcs.length → (runAllNB srcs).unit j = (initNB srcs).unit j) := by
  have hacyP := acyclicB_iff.mp hacy
  have huP := uniqueDefsB_to hu
  have hwf := initNB_wf srcs
  have hgP := greenB_to hg
  have hclean := recompute_clean hacyP huP (initNB_structErr srcs)
  have hrw : runAllP srcs =
      runPassOn (initNB srcs)
        (passTargets (initNB srcs) (Finset.range (initNB srcs).len)) := by
    unfold runAllP
    show runPassOn (structuralRecompute (initNB srcs)).1
      (passTargets (structuralRecompute (initNB srcs)).1
        (Finset.range (structuralRecompute (initNB srcs)).1.len)) = _
    rw [hclean.1]
  have hskip : strictDescF (initNB srcs) (structErrSet (initNB srcs)) = ∅ := by
    rw [structErrSet_empty (initNB_structErr srcs), strictDescF_empty]
  have hrun : runAllP srcs =
      runUnits (initNB srcs) (initNB srcs)
        (orderOf (initNB srcs)
          (passTargets (initNB srcs) (Finset.range (initNB srcs).len))) ∅ := by
    rw [hrw]
    unfold runPassOn
    rw [hskip]
  have hmem : ∀ v, v ∈ orderOf (initNB srcs)
      (passTargets (initNB srcs) (Finset.range (initNB srcs).len)) ↔
      v < srcs.length := by
    intro v
    rw [mem_orderOf, mem_passTargets]
    constructor
    · rintro ⟨h1, _, _⟩
      exact h1
    · intro h1
      refine ⟨h1, Finset.mem_range.mpr h1, ?_⟩
      have hst := initNB_status_stale hall h1
      simp [schedulableB, hst]
  have hgreen := runUnits_green (initNB srcs) hacyP huP hwf
    (orderOf (initNB srcs)
      (passTargets (initNB srcs) (Finset.range (initNB srcs).len)))
    (initNB srcs)
    (orderOf_sorted _ _)
    (orderOf_nodup _ _ (passTargets_nodup _ _))
    (fun v hv => by
      have hvlen := (hmem v).mp hv
      refine ⟨hvlen, ?_⟩
      have hst := initNB_status_stale hall hvlen
      rw [hst]
      intro hc
      cases hc)
    (fun v hv => by
      have hvlen := (hmem v).mp hv
      have hst := initNB_status_stale hall hvlen
      exact hgP v hvlen (by rw [hst]; intro hc; cases hc))
    (fun m j hd hj => by
      exfalso
      have hnd := definerIdx_mem hd
      have hjlen : j < srcs.length := (ndefB_iff.mp hnd).1
      exact hj ((hmem j).mpr hjlen))
    (fun j => ⟨rfl, rfl, rfl⟩)
  obtain ⟨hga, hgb, hgc, hgd, hge⟩ := hgreen
  have hnb : runAllNB srcs = (runUnits (initNB srcs) (initNB srcs)
      (orderOf (initNB srcs)
        (passTargets (initNB srcs) (Finset.range (initNB srcs).len))) ∅).1 := by
    unfold runAllNB
    rw [hrun]
  refine ⟨?_, ?_, ?_, ?_, ?_, ?_⟩
  · rw [hnb, runUnits_len]
    rfl
  · intro m j hd
    rw [hnb]
    exact hgc m j hd
  · intro m hd
    rw [hnb]
    rw [hgb m hd]
    rfl
  · intro v hv
    rw [hnb]
    exact hge v ((hmem v).mpr hv)
  · intro j
    rw [hnb]
    exact runUnits_uData _ _ _ _ j
  · intro j hj
    rw [hnb]
    refine runUnits_unit_frame _ _ _ _ j ?_
    intro hmem2
    exact hj ((hmem j).mp hmem2)

/-! ### Support for the confluence theorem -/

theorem initNB_unit_congr {srcs1 srcs2 : List Src} {j : Nat}
    (h : srcs1.getD j .bad = srcs2.getD j .bad) :
    (initNB srcs1).unit j = (initNB srcs2).unit j := by
  cases h2 : srcs2.getD j .bad with
  | bad =>
    rw [initNB_unit_bad (h.trans h2), initNB_unit_bad h2]
  | mkCode stmts =>
    rw [initNB_unit_code (h.trans h2), initNB_unit_code h2]

theorem initNB_not_disabled (srcs : List Src) (j : Nat) :
    ((initNB srcs).unit j).status ≠ .disabled := by
  cases h : srcs.getD j .bad with
  | bad =>
    rw [initNB_unit_bad h]
    intro hc
    cases hc
  | mkCode stmts =>
    rw [initNB_unit_code h]
    intro hc
    cases hc

theorem allCodeB_set {srcs : List Src} {u : Nat} {stmts : List Stmt}
    (h : allCodeB srcs = true) :
    allCodeB (srcs.set u (.mkCode stmts)) = true := by
  apply List.all_eq_true.mpr
  intro s hs
  rcases List.mem_or_eq_of_mem_set hs with hmem | he
  · exact List.all_eq_true.mp h s hmem
  · rw [he]
    rfl

theorem getD_set_self {srcs : List Src} {u : Nat} {s : Src} (hu : u < srcs.length) :
    (srcs.set u s).getD u .bad = s := by
  unfold List.getD
  rw [List.get?_eq_getElem?, List.getElem?_set_self']
  simp [List.getElem?_eq_getElem hu]

theorem getD_set_ne {srcs : List Src} {u j : Nat} {s : Src} (h : j ≠ u) :
    (srcs.set u s).getD j .bad = srcs.getD j .bad := by
  unfold List.getD
  rw [List.get?_eq_getElem?, List.get?_eq_getElem?,
    List.getElem?_set_ne (fun he => h he.symm)]

theorem applyEdit_code_eq (i : Nat) (stmts : List Stmt) (nb : Notebook)
    (hi : i < nb.len) :
    applyEdit i (.mkCode stmts) nb =
      runPassOn (structuralRecompute (upsertE i stmts nb)).1
        (passTargets (structuralRecompute (upsertE i stmts nb)).1
          (insert i (strictDescF (structuralRecompute (upsertE i stmts nb)).1 {i}) ∪
            (structuralRecompute (upsertE i stmts nb)).2 ∪
            strictDescF (structuralRecompute (upsertE i stmts nb)).1
              (structuralRecompute (upsertE i stmts nb)).2)) := by
  unfold applyEdit
  rw [if_pos hi]

/-- Incremental edit on a green notebook: the final Runtime Environment
equals the one of a from-scratch run of the edited sources. -/
theorem applyEdit_confluence (srcs : List Src) (u : Nat) (stmts : List Stmt)
    (hulen : u < srcs.length)
    (hall : allCodeB srcs = true)
    (hacy : acyclicB (initNB srcs) = true)
    (huq : uniqueDefsB (initNB srcs) = true)
    (hg : greenB (initNB srcs) = true)
    (hacy2 : acyclicB (initNB (srcs.set u (.mkCode stmts))) = true)
    (huq2 : uniqueDefsB (initNB (srcs.set u (.mkCode stmts))) = true)
    (hg2 : greenB (initNB (srcs.set u (.mkCode stmts))) = true) :
    ∀ n, (applyEdit u (.mkCode stmts) (runAllNB srcs)).1.env n =
      (runAllNB (srcs.set u (.mkCode stmts))).env n := by
  have hlenset : (srcs.set u (.mkCode stmts)).length = srcs.length :=
    List.length_set srcs u _
  have hall2 : allCodeB (srcs.set u (.mkCode stmts)) = true := allCodeB_set hall
  have hacyA := acyclicB_iff.mp hacy
  have huA := uniqueDefsB_to huq
  have hwfA := initNB_wf srcs
  have hacyB := acyclicB_iff.mp hacy2
  have huB := uniqueDefsB_to huq2
  have hwfB := initNB_wf (srcs.set u (.mkCode stmts))
  have hgB := greenB_to hg2
  obtain ⟨hlen0, henv0some, henv0none, hidle0, hdata0, hjunk0⟩ :=
    runAll_green srcs hall hacy huq hg
  obtain ⟨hlen2, henv2some, henv2none, _, _, _⟩ :=
    runAll_green (srcs.set u (.mkCode stmts)) hall2 hacy2 huq2 hg2
  have hnb0_nodis : ∀ j, ((runAllNB srcs).unit j).status ≠ .disabled := by
    intro j
    by_cases hj : j < srcs.length
    · rw [hidle0 j hj]
      intro hc
      cases hc
    · rw [hjunk0 j hj]
      exact initNB_not_disabled srcs j
  have hnb0_structErr : ∀ j, structErr ((runAllNB srcs).unit j).status = false := by
    intro j
    by_cases hj : j < srcs.length
    · rw [hidle0 j hj]
      rfl
    · rw [hjunk0 j hj]
      exact initNB_structErr srcs j
  have hABunit : ∀ j, j ≠ u →
      (initNB srcs).unit j = (initNB (srcs.set u (.mkCode stmts))).unit j :=
    fun j hj => initNB_unit_congr (getD_set_ne hj).symm
  have hBu : (initNB (srcs.set u (.mkCode stmts))).unit u = mkUnit stmts .stale [] :=
    initNB_unit_code (getD_set_self hulen)
  -- the post-upsert state has the edited graph
  have hliv : LiveEq (upsertE u stmts (runAllNB srcs))
      (initNB (srcs.set u (.mkCode stmts))) := by
    constructor
    · show (runAllNB srcs).len = (srcs.set u (.mkCode stmts)).length
      rw [hlen0, hlenset]
    · intro j
      by_cases hj : j = u
      · subst hj
        rw [upsertE_unit_self, hBu]
        refine ⟨rfl, rfl, rfl, ?_, ?_⟩
        · intro hd
          exact absurd hd (hnb0_nodis j)
        · intro hd
          cases hd
      · rw [upsertE_unit_ne hj, ← hABunit j hj]
        obtain ⟨h1, h2, h3⟩ := hdata0 j
        refine ⟨h1, h2, h3, ?_, ?_⟩
        · intro hd
          exact absurd hd (hnb0_nodis j)
        · intro hd
          exact absurd hd (initNB_not_disabled srcs j)
  have hacyBt : AcyclicP (upsertE u stmts (runAllNB srcs)) := hliv.acyclic hacyB
  have huBt : UniqueDefsP (upsertE u stmts (runAllNB srcs)) := hliv.uniqueDefs huB
  have hwfBt : WfP (upsertE u stmts (runAllNB srcs)) := hliv.wf hwfB
  have hsemBt : semW (upsertE u stmts (runAllNB srcs)) =
      semW (initNB (srcs.set u (.mkCode stmts))) := hliv.semW_eq
  have hBtlen : (upsertE u stmts (runAllNB srcs)).len = srcs.length := hlen0
  have hBtstruct : ∀ i,
      structErr ((upsertE u stmts (runAllNB srcs)).unit i).status = false := by
    intro i
    by_cases hi : i = u
    · subst hi
      rw [upsertE_unit_self]
      exact hnb0_structErr i
    · rw [upsertE_unit_ne hi]
      exact hnb0_structErr i
  have hBt_nodis : ∀ i,
      ((upsertE u stmts (runAllNB srcs)).unit i).status ≠ .disabled := by
    intro i
    by_cases hi : i = u
    · subst hi
      rw [upsertE_unit_self]
      exact hnb0_nodis i
    · rw [upsertE_unit_ne hi]
      exact hnb0_nodis i
  have hclean := recompute_clean hacyBt huBt hBtstruct
  have hulen0 : u < (runAllNB srcs).len := by
    rw [hlen0]
    exact hulen
  have happ := applyEdit_code_eq u stmts (runAllNB srcs) hulen0
  rw [hclean.1, hclean.2, strictDescF_empty, Finset.union_empty,
    Finset.union_empty] at happ
  have hpass : runPassOn (upsertE u stmts (runAllNB srcs))
      (passTargets (upsertE u stmts (runAllNB srcs))
        (insert u (strictDescF (upsertE u stmts (runAllNB srcs)) {u}))) =
      runUnits (upsertE u stmts (runAllNB srcs)) (upsertE u stmts (runAllNB srcs))
        (orderOf (upsertE u stmts (runAllNB srcs))
          (passTargets (upsertE u stmts (runAllNB srcs))
            (insert u (strictDescF (upsertE u stmts (runAllNB srcs)) {u})))) ∅ := by
    unfold runPassOn
    rw [structErrSet_empty hBtstruct, strictDescF_empty]
  have hsched : ∀ j, j < srcs.length →
      schedulableB (upsertE u stmts (runAllNB srcs)) j = true := by
    intro j hj
    by_cases hju : j = u
    · subst hju
      have hst : ((upsertE j stmts (runAllNB srcs)).unit j).status = .idle := by
        rw [upsertE_unit_self]
        exact hidle0 j hj
      simp [schedulableB, hst]
    · have hst : ((upsertE u stmts (runAllNB srcs)).unit j).status = .idle := by
        rw [upsertE_unit_ne hju]
        exact hidle0 j hj
      simp [schedulableB, hst]
  have hordermem : ∀ j, j ∈ orderOf (upsertE u stmts (runAllNB srcs))
      (passTargets (upsertE u stmts (runAllNB srcs))
        (insert u (strictDescF (upsertE u stmts (runAllNB srcs)) {u}))) ↔
      (j = u ∨ j ∈ strictDescF (upsertE u stmts (runAllNB srcs)) {u}) := by
    intro j
    rw [mem_orderOf, mem_passTargets, Finset.mem_insert]
    constructor
    · rintro ⟨_, hins, _⟩
      exact hins
    · intro hins
      have hjlt : j < srcs.length := by
        rcases hins with rfl | hd
        · exact hulen
        · have := (transGen_edge_lt (mem_strictDescF_single.mp hd)).2
          rw [hBtlen] at this
          exact this
      refine ⟨by rw [hBtlen]; exact hjlt, hins, hsched j hjlt⟩
  -- the incremental pass is green
  have hgreenBt := runUnits_green (upsertE u stmts (runAllNB srcs)) hacyBt huBt hwfBt
    (orderOf (upsertE u stmts (runAllNB srcs))
      (passTargets (upsertE u stmts (runAllNB srcs))
        (insert u (strictDescF (upsertE u stmts (runAllNB srcs)) {u}))))
    (upsertE u stmts (runAllNB srcs))
    (orderOf_sorted _ _)
    (orderOf_nodup _ _ (passTargets_nodup _ _))
    (fun v hv => by
      have hins := (hordermem v).mp hv
      have hvlt : v < srcs.length := by
        rcases hins with rfl | hd
        · exact hulen
        · have := (transGen_edge_lt (mem_strictDescF_single.mp hd)).2
          rw [hBtlen] at this
          exact this
      exact ⟨by rw [hBtlen]; exact hvlt, hBt_nodis v⟩)
    (fun v hv => by
      have hins := (hordermem v).mp hv
      have hvlt : v < srcs.length := by
        rcases hins with rfl | hd
        · exact hulen
        · have := (transGen_edge_lt (mem_strictDescF_single.mp hd)).2
          rw [hBtlen] at this
          exact this
      have hgv := hgB v
        (by
          show v < (srcs.set u (Src.mkCode stmts)).length
          rw [hlenset]
          exact hvlt)
        (by
          have h2 := (hliv.2 v).2.2.2
          intro hd
          exact hBt_nodis v (h2.mpr hd))
      obtain ⟨hrefs, hexec⟩ := hgv
      constructor
      · intro n hn
        rw [hsemBt]
        refine hrefs n ?_
        rw [← (hliv.2 v).2.2.1]
        exact hn
      · rw [hsemBt, (hliv.2 v).1]
        exact hexec)
    (fun m j hd hj => by
      -- a definer outside the affected set already has its final value
      have hndBt := definerIdx_mem hd
      obtain ⟨hjlen, hjdis, hjdefs⟩ := ndefB_iff.mp hndBt
      have hjlt : j < srcs.length := by
        rw [hBtlen] at hjlen
        exact hjlen
      have hnobase : ¬(j = u ∨ j ∈ strictDescF (upsertE u stmts (runAllNB srcs)) {u}) := by
        intro hins
        exact hj ((hordermem j).mpr hins)
      push_neg at hnobase
      obtain ⟨hju, hjdesc⟩ := hnobase
      -- j's record is untouched by the upsert
      have hdefs0 : ((upsertE u stmts (runAllNB srcs)).unit j).defs =
          ((initNB srcs).unit j).defs := by
        rw [upsertE_unit_ne hju, (hdata0 j).2.1]
      have hndA : ndefB (initNB srcs) j m = true := by
        refine ndefB_iff.mpr ⟨hjlt, initNB_not_disabled srcs j, ?_⟩
        rw [← hdefs0]
        exact hjdefs
      have hdA : definerIdx (initNB srcs) m = some j := definerIdx_eq huA hndA
      -- the binding survives the upsert deletion
      have hmdel : ¬(m ∈ ((runAllNB srcs).unit u).defs ∧ m ∉ analyzeDefs stmts) := by
        rintro ⟨hmem, _⟩
        have hndAu : ndefB (initNB srcs) u m = true := by
          refine ndefB_iff.mpr ⟨hulen, initNB_not_disabled srcs u, ?_⟩
          rw [← (hdata0 u).2.1]
          exact hmem
        exact hju (huA m j u hndA hndAu)
      have henvBt : (upsertE u stmts (runAllNB srcs)).env m = (runAllNB srcs).env m := by
        show (if m ∈ ((runAllNB srcs).unit u).defs ∧ m ∉ analyzeDefs stmts then none
          else (runAllNB srcs).env m) = (runAllNB srcs).env m
        rw [if_neg hmdel]
      -- cone transfer of the denotation
      have hdB : definerIdx (initNB (srcs.set u (.mkCode stmts))) m = some j := by
        rw [← hliv.definerIdx_same m]
        exact hd
      have hjdescB : j ∉ strictDescF (initNB (srcs.set u (.mkCode stmts))) {u} := by
        rw [← hliv.strictDescF_eq]
        exact hjdesc
      have hcone := semW_cone (initNB srcs) (initNB (srcs.set u (.mkCode stmts))) u
        (by
          show srcs.length = (srcs.set u (Src.mkCode stmts)).length
          rw [hlenset] :
          (initNB srcs).len = (initNB (srcs.set u (.mkCode stmts))).len)
        (fun k hk => by
          rw [hABunit k hk]
          exact ⟨rfl, rfl, rfl, Iff.rfl⟩)
        hacyA hacyB huA hwfA hwfB
        (fun v hv hdis => (hgB v hv hdis).1)
        (rankOf (initNB (srcs.set u (.mkCode stmts))) j) j le_rfl hju hjdescB m hdB
      rw [henvBt, henv0some m j hdA, hcone, ← hsemBt])
    (fun j => ⟨rfl, rfl, rfl⟩)
  obtain ⟨_, hgb, hgc, _, _⟩ := hgreenBt
  have hfin : (applyEdit u (.mkCode stmts) (runAllNB srcs)).1 =
      (runUnits (upsertE u stmts (runAllNB srcs)) (upsertE u stmts (runAllNB srcs))
        (orderOf (upsertE u stmts (runAllNB srcs))
          (passTargets (upsertE u stmts (runAllNB srcs))
            (insert u (strictDescF (upsertE u stmts (runAllNB srcs)) {u})))) ∅).1 := by
    rw [happ, hpass]
  intro n
  rw [hfin]
  cases hdBt : definerIdx (upsertE u stmts (runAllNB srcs)) n with
  | some j =>
    have h1 := hgc n j hdBt
    have hdB : definerIdx (initNB (srcs.set u (.mkCode stmts))) n = some j := by
      rw [← hliv.definerIdx_same n]
      exact hdBt
    rw [h1, hsemBt, henv2some n j hdB]
  | none =>
    have h1 := hgb n hdBt
    have hdB : definerIdx (initNB (srcs.set u (.mkCode stmts))) n = none := by
      rw [← hliv.definerIdx_same n]
      exact hdBt
    rw [h1, henv2none n hdB]
    by_cases hcond : n ∈ ((runAllNB srcs).unit u).defs ∧ n ∉ analyzeDefs stmts
    · show (if n ∈ ((runAllNB srcs).unit u).defs ∧ n ∉ analyzeDefs stmts then none
        else (runAllNB srcs).env n) = none
      rw [if_pos hcond]
    · show (if n ∈ ((runAllNB srcs).unit u).defs ∧ n ∉ analyzeDefs stmts then none
        else (runAllNB srcs).env n) = none
      rw [if_neg hcond]
      have hdA : definerIdx (initNB srcs) n = none := by
        cases hdA : definerIdx (initNB srcs) n with
        | none => rfl
        | some j =>
          exfalso
          have hndA := definerIdx_mem hdA
          obtain ⟨hjlt, _, hjdefs⟩ := ndefB_iff.mp hndA
          by_cases hju : j = u
          · subst hju
            have hmem0 : n ∈ ((runAllNB srcs).unit j).defs := by
              rw [(hdata0 j).2.1]
              exact hjdefs
            have hin : n ∈ analyzeDefs stmts := by
              by_contra hnin
              exact hcond ⟨hmem0, hnin⟩
            have hndBt : ndefB (upsertE j stmts (runAllNB srcs)) j n = true := by
              refine ndefB_iff.mpr ⟨by rw [hBtlen]; exact hjlt, hBt_nodis j, ?_⟩
              rw [upsertE_unit_self]
              exact hin
            have := definerIdx_none hdBt j
            rw [hndBt] at this
            cases this
          · have hndBt : ndefB (upsertE u stmts (runAllNB srcs)) j n = true := by
              refine ndefB_iff.mpr ⟨by rw [hBtlen]; exact hjlt, hBt_nodis j, ?_⟩
              rw [upsertE_unit_ne hju, (hdata0 j).2.1]
              exact hjdefs
            have := definerIdx_none hdBt j
            rw [hndBt] at this
            cases this
      exact henv0none n hdA

/-! ### Support for passes over normal (idle/stale) notebooks -/

theorem normalB_to {nb : Notebook} (h : normalB nb = true) :
    ∀ j, j < nb.len → (nb.unit j).status = .idle ∨ (nb.unit j).status = .stale := by
  intro j hj
  have h2 := List.all_eq_true.mp h j (List.mem_range.mpr hj)
  simpa using h2

/-- Structural recompute never flips the disabled flag nor touches unit
data: the graph is unchanged. -/
theorem recompute_liveEq (nb : Notebook) : LiveEq (structuralRecompute nb).1 nb := by
  refine ⟨rfl, fun j => ⟨rfl, rfl, rfl, ?_⟩⟩
  show (recomputeStatus nb j = .disabled ↔ (nb.unit j).status = .disabled)
  unfold recomputeStatus
  split
  · simp [*]
  · split
    · constructor
      · intro hc
        cases hc
      · intro hc
        exact absurd hc (by assumption)
    · split
      · constructor
        · intro hc
          cases hc
        · intro hc
          exact absurd hc (by assumption)
      · split
        · constructor
          · intro hc
            cases hc
          · intro hc
            exact absurd hc (by assumption)
        · exact Iff.rfl

theorem recompute_unit_normal {nb : Notebook} {j : Nat} (hacy : AcyclicP nb)
    (hu : UniqueDefsP nb) (hse : structErr (nb.unit j).status = false) :
    (structuralRecompute nb).1.unit j = nb.unit j := by
  show (⟨(nb.unit j).code, (nb.unit j).defs, (nb.unit j).refs,
    recomputeStatus nb j, (nb.unit j).output⟩ : CodeUnit) = nb.unit j
  rw [recomputeStatus_id hacy hu hse]

theorem recompute_cleared_empty {nb : Notebook}
    (h : ∀ j, j < nb.len → structErr ((nb.unit j)).status = false) :
    (structuralRecompute nb).2 = ∅ := by
  ext i
  simp only [structuralRecompute, Finset.mem_filter, Finset.mem_range,
    Finset.not_mem_empty, iff_false, not_and]
  intro hi hse
  rw [h i hi] at hse
  exact absurd hse (by simp)

theorem runUnits_ev_inj (g : Notebook) (order : List Nat) (nb : Notebook)
    (skip : Finset Nat) (hnd : order.Nodup) :
    ∀ e1 ∈ (runUnits g nb order skip).2, ∀ e2 ∈ (runUnits g nb order skip).2,
      evUnit e1 = evUnit e2 → e1 = e2 := by
  have hmap := runUnits_evs_units g order nb skip
  have hndm : (((runUnits g nb order skip).2).map evUnit).Nodup := by
    rw [hmap]
    exact hnd
  exact List.inj_on_of_nodup_map hndm

theorem transGen_edge_target {nb : Notebook} {j i : Nat}
    (h : Relation.TransGen (edgeP nb) j i) :
    i < nb.len ∧ (nb.unit i).status ≠ .disabled := by
  induction h with
  | single hr =>
    obtain ⟨h1, h2, _⟩ := edgeB_iff.mp hr
    exact ⟨h1, h2⟩
  | tail _ hr _ =>
    obtain ⟨h1, h2, _⟩ := edgeB_iff.mp hr
    exact ⟨h1, h2⟩

theorem mem_cycleSetF {nb : Notebook} {v : Nat} :
    v ∈ cycleSetF nb ↔ v < nb.len ∧ v ∈ strictDescF nb {v} := by
  simp [cycleSetF, Finset.mem_filter, Finset.mem_range]

theorem strictDescF_mono {nb : Notebook} {S T : Finset Nat} (h : S ⊆ T) :
    strictDescF nb S ⊆ strictDescF nb T := by
  intro w hw
  obtain ⟨j, hj, hT⟩ := mem_strictDescF.mp hw
  exact mem_strictDescF.mpr ⟨j, h hj, hT⟩

theorem mem_cleared {nb : Notebook} {i : Nat} :
    i ∈ (structuralRecompute nb).2 ↔
      i < nb.len ∧ structErr (nb.unit i).status = true ∧
        structErr (recomputeStatus nb i) = false := by
  simp [structuralRecompute, Finset.mem_filter, Finset.mem_range, and_assoc]

theorem upsertE_status (i : Nat) (stmts : List Stmt) (nb : Notebook) (j : Nat) :
    ((upsertE i stmts nb).unit j).status = (nb.unit j).status := by
  by_cases hj : j = i
  · subst hj
    rw [upsertE_unit_self]
    rfl
  · rw [upsertE_unit_ne hj]

theorem structErr_false_ne {st : UStatus} (h : structErr st = false) :
    st ≠ .error .cycleErr ∧ st ≠ .error .multiDefErr := by
  constructor
  · intro hc
    subst hc
    simp [structErr] at h
  · intro hc
    subst hc
    simp [structErr] at h

theorem recompute_unit_eq (nb : Notebook) (j : Nat) :
    (structuralRecompute nb).1.unit j =
      ⟨(nb.unit j).code, (nb.unit j).defs, (nb.unit j).refs,
        recomputeStatus nb j, (nb.unit j).output⟩ := rfl

theorem recomputeStatus_ne_cycle {nb : Notebook} {v : Nat} (hacy : AcyclicP nb) :
    recomputeStatus nb v ≠ .error .cycleErr := by
  unfold recomputeStatus
  rw [cycleSetF_empty hacy]
  split
  · intro hc
    cases hc
  · rw [if_neg (Finset.not_mem_empty v)]
    split
    · intro hc
      cases hc
    · split
      · intro hc
        cases hc
      · intro hc
        rename_i hse
        rw [hc] at hse
        exact hse rfl

theorem runPassOn_eq (nb : Notebook) (targets : List Nat) :
    runPassOn nb targets =
      runUnits nb nb (orderOf nb targets) (strictDescF nb (structErrSet nb)) := rfl

/-! ## Claim theorems for the reactive core -/

/-- C1 (counterexample): as stated — acyclicity and absence of name
conflicts alone — the claim fails: editing the single unit `x := 1` of a
green notebook to the faulting body `x := 1/0` leaves the incremental
Runtime Environment with the retained binding `x = 1`, while the
from-scratch run of the edited notebook binds nothing. -/
theorem C1_counterexample :
    acyclicB (initNB [Src.mkCode [(0, Expr.const 1)]]) = true ∧
    uniqueDefsB (initNB [Src.mkCode [(0, Expr.const 1)]]) = true ∧
    acyclicB (initNB [Src.mkCode [(0, Expr.div (Expr.const 1) (Expr.const 0))]]) = true ∧
    uniqueDefsB (initNB [Src.mkCode [(0, Expr.div (Expr.const 1) (Expr.const 0))]]) = true ∧
    (applyEdit 0 (Src.mkCode [(0, Expr.div (Expr.const 1) (Expr.const 0))])
      (runAllNB [Src.mkCode [(0, Expr.const 1)]])).1.env 0 = some 1 ∧
    (runAllNB [Src.mkCode [(0, Expr.div (Expr.const 1) (Expr.const 0))]]).env 0 = none := by
  refine ⟨by decide, by decide, by decide, by decide, by decide, by decide⟩

/-- C1 (amended): for every notebook whose dependency graph — before and
after the edit — is acyclic and has no name conflicts, and on which every
scheduled execution succeeds (all sources parse, all references resolve
and no body faults, stated against the denotation), applying a single
edit via `apply_edit` after a full run yields exactly the same final
name-to-value bindings as executing the edited notebook once from an
empty Runtime Environment in dependency order. -/
theorem C1_incremental_equals_scratch (srcs : List Src) (u : Nat)
    (stmts : List Stmt) (hulen : u < srcs.length)
    (hall : allCodeB srcs = true)
    (hacy : acyclicB (initNB srcs) = true)
    (huq : uniqueDefsB (initNB srcs) = true)
    (hg : greenB (initNB srcs) = true)
    (hacy2 : acyclicB (initNB (srcs.set u (.mkCode stmts))) = true)
    (huq2 : uniqueDefsB (initNB (srcs.set u (.mkCode stmts))) = true)
    (hg2 : greenB (initNB (srcs.set u (.mkCode stmts))) = true) :
    ∀ n, (applyEdit u (.mkCode stmts) (runAllNB srcs)).1.env n =
      (runAllNB (srcs.set u (.mkCode stmts))).env n :=
  applyEdit_confluence srcs u stmts hulen hall hacy huq hg hacy2 huq2 hg2

/-- C1 (witness): a concrete two-unit notebook, editing unit 0. -/
theorem C1_incremental_equals_scratch_witness :
    (0 < ([Src.mkCode [(0, Expr.const 1)],
      Src.mkCode [(1, Expr.add (Expr.var 0) (Expr.const 1))]] : List Src).length) ∧
    (∀ n, (applyEdit 0 (Src.mkCode [(0, Expr.const 5)])
        (runAllNB [Src.mkCode [(0, Expr.const 1)],
          Src.mkCode [(1, Expr.add (Expr.var 0) (Expr.const 1))]])).1.env n =
      (runAllNB ([Src.mkCode [(0, Expr.const 1)],
        Src.mkCode [(1, Expr.add (Expr.var 0) (Expr.const 1))]].set 0
          (Src.mkCode [(0, Expr.const 5)]))).env n) :=
  ⟨by decide,
    C1_incremental_equals_scratch
      [Src.mkCode [(0, Expr.const 1)],
        Src.mkCode [(1, Expr.add (Expr.var 0) (Expr.const 1))]]
      0 [(0, Expr.const 5)] (by decide) (by decide) (by decide) (by decide)
      (by decide) (by decide) (by decide) (by decide)⟩

/-- C2: in a scheduling pass over a normal (idle/stale) notebook whose
edited graph is acyclic and conflict-free, a unit whose body raises a
runtime fault is marked `error(RuntimeError)`; every strict descendant
transitions to `stale`, retains its previous output, and is not executed
in that pass; and the faulting unit publishes nothing — the Runtime
Environment keeps the pre-pass values of all names it defines. -/
theorem C2_fault_containment (i : Nat) (stmts : List Stmt) (nb : Notebook) (v : Nat)
    (hi : i < nb.len)
    (hnorm : normalB nb = true)
    (hacy : acyclicB (upsertE i stmts nb) = true)
    (huq : uniqueDefsB (upsertE i stmts nb) = true)
    (hfault : PassEv.faulted v ∈ (applyEdit i (.mkCode stmts) nb).2) :
    ((applyEdit i (.mkCode stmts) nb).1.unit v).status = .error .runtimeErr ∧
    (∀ w, w ∈ strictDescF (upsertE i stmts nb) {v} →
      ((applyEdit i (.mkCode stmts) nb).1.unit w).status = .stale ∧
      ((applyEdit i (.mkCode stmts) nb).1.unit w).output = (nb.unit w).output ∧
      PassEv.ran w ∉ (applyEdit i (.mkCode stmts) nb).2 ∧
      PassEv.faulted w ∉ (applyEdit i (.mkCode stmts) nb).2) ∧
    (∀ n, n ∈ ((upsertE i stmts nb).unit v).defs →
      (applyEdit i (.mkCode stmts) nb).1.env n = (upsertE i stmts nb).env n) := by
  have hacyBt := acyclicB_iff.mp hacy
  have huBt := uniqueDefsB_to huq
  have hnormP := normalB_to hnorm
  have hBtnormal : ∀ j, j < nb.len →
      ((upsertE i stmts nb).unit j).status = .idle ∨
      ((upsertE i stmts nb).unit j).status = .stale := by
    intro j hj
    by_cases hji : j = i
    · subst hji
      rw [upsertE_unit_self]
      exact hnormP j hj
    · rw [upsertE_unit_ne hji]
      exact hnormP j hj
  have hBtse : ∀ j, j < nb.len →
      structErr ((upsertE i stmts nb).unit j).status = false := by
    intro j hj
    rcases hBtnormal j hj with h | h <;> rw [h] <;> rfl
  have hPunit : ∀ j, j < nb.len →
      (structuralRecompute (upsertE i stmts nb)).1.unit j =
        (upsertE i stmts nb).unit j := by
    intro j hj
    exact recompute_unit_normal hacyBt huBt (hBtse j hj)
  have hliv := recompute_liveEq (upsertE i stmts nb)
  have hacyP : AcyclicP (structuralRecompute (upsertE i stmts nb)).1 :=
    hliv.acyclic hacyBt
  have huP : UniqueDefsP (structuralRecompute (upsertE i stmts nb)).1 :=
    hliv.uniqueDefs huBt
  have hC : (structuralRecompute (upsertE i stmts nb)).2 = ∅ :=
    recompute_cleared_empty hBtse
  have happ := applyEdit_code_eq i stmts nb hi
  rw [hC, strictDescF_empty, Finset.union_empty, Finset.union_empty] at happ
  have hse : structErrSet (structuralRecompute (upsertE i stmts nb)).1 = ∅ := by
    ext j
    simp only [structErrSet, Finset.mem_filter, Finset.mem_range,
      Finset.not_mem_empty, iff_false, not_and]
    intro hj hstruct
    rw [hPunit j hj, hBtse j hj] at hstruct
    exact absurd hstruct (by simp)
  have hrun : applyEdit i (.mkCode stmts) nb =
      runUnits (structuralRecompute (upsertE i stmts nb)).1
        (structuralRecompute (upsertE i stmts nb)).1
        (orderOf (structuralRecompute (upsertE i stmts nb)).1
          (passTargets (structuralRecompute (upsertE i stmts nb)).1
            (insert i (strictDescF (structuralRecompute (upsertE i stmts nb)).1 {i}))))
        ∅ := by
    rw [happ]
    unfold runPassOn
    rw [hse, strictDescF_empty]
  rw [hrun] at hfault ⊢
  have hnd := orderOf_nodup (structuralRecompute (upsertE i stmts nb)).1
    (passTargets (structuralRecompute (upsertE i stmts nb)).1
      (insert i (strictDescF (structuralRecompute (upsertE i stmts nb)).1 {i})))
    (passTargets_nodup _ _)
  have hsort := orderOf_sorted (structuralRecompute (upsertE i stmts nb)).1
    (passTargets (structuralRecompute (upsertE i stmts nb)).1
      (insert i (strictDescF (structuralRecompute (upsertE i stmts nb)).1 {i})))
  have hinj := runUnits_ev_inj (structuralRecompute (upsertE i stmts nb)).1
    (orderOf (structuralRecompute (upsertE i stmts nb)).1
      (passTargets (structuralRecompute (upsertE i stmts nb)).1
        (insert i (strictDescF (structuralRecompute (upsertE i stmts nb)).1 {i}))))
    (structuralRecompute (upsertE i stmts nb)).1 ∅ hnd
  have hvorder : v ∈ orderOf (structuralRecompute (upsertE i stmts nb)).1
      (passTargets (structuralRecompute (upsertE i stmts nb)).1
        (insert i (strictDescF (structuralRecompute (upsertE i stmts nb)).1 {i}))) := by
    have hmap := runUnits_evs_units (structuralRecompute (upsertE i stmts nb)).1
      (orderOf (structuralRecompute (upsertE i stmts nb)).1
        (passTargets (structuralRecompute (upsertE i stmts nb)).1
          (insert i (strictDescF (structuralRecompute (upsertE i stmts nb)).1 {i}))))
      (structuralRecompute (upsertE i stmts nb)).1 ∅
    have h1 : evUnit (PassEv.faulted v) ∈ _ := List.mem_map_of_mem evUnit hfault
    rw [hmap] at h1
    exact h1
  have hvt := (mem_orderOf.mp hvorder)
  obtain ⟨hvlen, hvins, hvsched⟩ := mem_passTargets.mp hvt
  -- a helper for members of the affected cone
  have horder_of : ∀ w, w < nb.len →
      w ∈ insert i (strictDescF (structuralRecompute (upsertE i stmts nb)).1 {i}) →
      w ∈ orderOf (structuralRecompute (upsertE i stmts nb)).1
        (passTargets (structuralRecompute (upsertE i stmts nb)).1
          (insert i (strictDescF (structuralRecompute (upsertE i stmts nb)).1 {i}))) := by
    intro w hwlen hwins
    rw [mem_orderOf, mem_passTargets]
    refine ⟨hwlen, hwins, ?_⟩
    rcases hBtnormal w hwlen with h | h <;>
      · rw [← hPunit w hwlen] at h
        simp [schedulableB, h]
  -- outcome of the faulting unit
  have hout := runUnits_outcome (structuralRecompute (upsertE i stmts nb)).1 _
    (structuralRecompute (upsertE i stmts nb)).1 ∅ v hnd hvorder
  have hstatv : ((runUnits (structuralRecompute (upsertE i stmts nb)).1
      (structuralRecompute (upsertE i stmts nb)).1
      (orderOf (structuralRecompute (upsertE i stmts nb)).1
        (passTargets (structuralRecompute (upsertE i stmts nb)).1
          (insert i (strictDescF (structuralRecompute (upsertE i stmts nb)).1 {i}))))
      ∅).1.unit v).status = .error .runtimeErr := by
    rcases hout with ⟨h1, _, _⟩ | ⟨h1, _⟩ | ⟨_, h2, _⟩ | ⟨h1, _, _⟩
    · cases hinj _ h1 _ hfault rfl
    · cases hinj _ h1 _ hfault rfl
    · exact h2
    · cases hinj _ h1 _ hfault rfl
  refine ⟨hstatv, ?_, ?_⟩
  · intro w hw
    have hwP : w ∈ strictDescF (structuralRecompute (upsertE i stmts nb)).1 {v} := by
      rw [hliv.strictDescF_eq]
      exact hw
    have hTvw := mem_strictDescF_single.mp hwP
    have hwlen : w < nb.len := (transGen_edge_lt hTvw).2
    have hwins : w ∈ insert i
        (strictDescF (structuralRecompute (upsertE i stmts nb)).1 {i}) := by
      rcases Finset.mem_insert.mp hvins with he | hd
      · subst he
        exact Finset.mem_insert.mpr (Or.inr (mem_strictDescF_single.mpr hTvw))
      · exact Finset.mem_insert.mpr (Or.inr (mem_strictDescF_single.mpr
          ((mem_strictDescF_single.mp hd).trans hTvw)))
    have hworder := horder_of w hwlen hwins
    have hskipw := runUnits_fault_contain (structuralRecompute (upsertE i stmts nb)).1
      hacyP _ _ ∅ v hsort hfault w hwP hworder
    have houtw := runUnits_outcome (structuralRecompute (upsertE i stmts nb)).1 _
      (structuralRecompute (upsertE i stmts nb)).1 ∅ w hnd hworder
    have houtput : ((structuralRecompute (upsertE i stmts nb)).1.unit w).output =
        (nb.unit w).output := by
      rw [hPunit w hwlen]
      by_cases hwi : w = i
      · subst hwi
        rw [upsertE_unit_self]
        rfl
      · rw [upsertE_unit_ne hwi]
    rcases houtw with ⟨h1, h2, h3⟩ | ⟨h1, _⟩ | ⟨h1, _, _⟩ | ⟨h1, _, _⟩
    · refine ⟨h2, by rw [h3, houtput], ?_, ?_⟩
      · intro hran
        cases hinj _ hran _ hskipw rfl
      · intro hfw
        cases hinj _ hfw _ hskipw rfl
    · cases hinj _ h1 _ hskipw rfl
    · cases hinj _ h1 _ hskipw rfl
    · cases hinj _ h1 _ hskipw rfl
  · intro n hn
    have henv := runUnits_env_frame (structuralRecompute (upsertE i stmts nb)).1
      (orderOf (structuralRecompute (upsertE i stmts nb)).1
        (passTargets (structuralRecompute (upsertE i stmts nb)).1
          (insert i (strictDescF (structuralRecompute (upsertE i stmts nb)).1 {i}))))
      (structuralRecompute (upsertE i stmts nb)).1 ∅ n ?_
    · exact henv
    · intro w hran
      intro hmem
      have hworder : w ∈ orderOf (structuralRecompute (upsertE i stmts nb)).1
          (passTargets (structuralRecompute (upsertE i stmts nb)).1
            (insert i (strictDescF (structuralRecompute (upsertE i stmts nb)).1 {i}))) := by
        have hmap := runUnits_evs_units (structuralRecompute (upsertE i stmts nb)).1
          (orderOf (structuralRecompute (upsertE i stmts nb)).1
            (passTargets (structuralRecompute (upsertE i stmts nb)).1
              (insert i (strictDescF (structuralRecompute (upsertE i stmts nb)).1 {i}))))
          (structuralRecompute (upsertE i stmts nb)).1 ∅
        have h1 : evUnit (PassEv.ran w) ∈ _ := List.mem_map_of_mem evUnit hran
        rw [hmap] at h1
        exact h1
      obtain ⟨hwlen, _, hwsched⟩ := mem_passTargets.mp (mem_orderOf.mp hworder)
      have hndw : ndefB (structuralRecompute (upsertE i stmts nb)).1 w n = true :=
        ndefB_iff.mpr ⟨hwlen, schedulableB_not_disabled hwsched, hmem⟩
      have hndv : ndefB (structuralRecompute (upsertE i stmts nb)).1 v n = true := by
        refine ndefB_iff.mpr ⟨hvlen, schedulableB_not_disabled hvsched, ?_⟩
        rw [hPunit v ?hv2]
        · exact hn
        · exact hvlen
      have hwv : w = v := huP n w v hndw hndv
      subst hwv
      cases hinj _ hran _ hfault rfl

/-- C2 (witness): `x := 1; y := 100 / x; z := y`, then edit `x := 0`. -/
theorem C2_fault_containment_witness :
    PassEv.faulted 1 ∈ (applyEdit 0 (Src.mkCode [(0, Expr.const 0)])
      (runAllNB [Src.mkCode [(0, Expr.const 1)],
        Src.mkCode [(1, Expr.div (Expr.const 100) (Expr.var 0))],
        Src.mkCode [(2, Expr.var 1)]])).2 ∧
    (((applyEdit 0 (Src.mkCode [(0, Expr.const 0)])
        (runAllNB [Src.mkCode [(0, Expr.const 1)],
          Src.mkCode [(1, Expr.div (Expr.const 100) (Expr.var 0))],
          Src.mkCode [(2, Expr.var 1)]])).1.unit 1).status = .error .runtimeErr ∧
      (∀ w, w ∈ strictDescF (upsertE 0 [(0, Expr.const 0)]
          (runAllNB [Src.mkCode [(0, Expr.const 1)],
            Src.mkCode [(1, Expr.div (Expr.const 100) (Expr.var 0))],
            Src.mkCode [(2, Expr.var 1)]])) {1} →
        ((applyEdit 0 (Src.mkCode [(0, Expr.const 0)])
          (runAllNB [Src.mkCode [(0, Expr.const 1)],
            Src.mkCode [(1, Expr.div (Expr.const 100) (Expr.var 0))],
            Src.mkCode [(2, Expr.var 1)]])).1.unit w).status = .stale ∧
        ((applyEdit 0 (Src.mkCode [(0, Expr.const 0)])
          (runAllNB [Src.mkCode [(0, Expr.const 1)],
            Src.mkCode [(1, Expr.div (Expr.const 100) (Expr.var 0))],
            Src.mkCode [(2, Expr.var 1)]])).1.unit w).output =
          ((runAllNB [Src.mkCode [(0, Expr.const 1)],
            Src.mkCode [(1, Expr.div (Expr.const 100) (Expr.var 0))],
            Src.mkCode [(2, Expr.var 1)]]).unit w).output ∧
        PassEv.ran w ∉ (applyEdit 0 (Src.mkCode [(0, Expr.const 0)])
          (runAllNB [Src.mkCode [(0, Expr.const 1)],
            Src.mkCode [(1, Expr.div (Expr.const 100) (Expr.var 0))],
            Src.mkCode [(2, Expr.var 1)]])).2 ∧
        PassEv.faulted w ∉ (applyEdit 0 (Src.mkCode [(0, Expr.const 0)])
          (runAllNB [Src.mkCode [(0, Expr.const 1)],
            Src.mkCode [(1, Expr.div (Expr.const 100) (Expr.var 0))],
            Src.mkCode [(2, Expr.var 1)]])).2) ∧
      (∀ n, n ∈ ((upsertE 0 [(0, Expr.const 0)]
          (runAllNB [Src.mkCode [(0, Expr.const 1)],
            Src.mkCode [(1, Expr.div (Expr.const 100) (Expr.var 0))],
            Src.mkCode [(2, Expr.var 1)]])).unit 1).defs →
        (applyEdit 0 (Src.mkCode [(0, Expr.const 0)])
          (runAllNB [Src.mkCode [(0, Expr.const 1)],
            Src.mkCode [(1, Expr.div (Expr.const 100) (Expr.var 0))],
            Src.mkCode [(2, Expr.var 1)]])).1.env n =
          (upsertE 0 [(0, Expr.const 0)]
            (runAllNB [Src.mkCode [(0, Expr.const 1)],
              Src.mkCode [(1, Expr.div (Expr.const 100) (Expr.var 0))],
              Src.mkCode [(2, Expr.var 1)]])).env n)) :=
  ⟨by decide,
    C2_fault_containment 0 [(0, Expr.const 0)]
      (runAllNB [Src.mkCode [(0, Expr.const 1)],
        Src.mkCode [(1, Expr.div (Expr.const 100) (Expr.var 0))],
        Src.mkCode [(2, Expr.var 1)]]) 1
      (by decide) (by decide) (by decide) (by decide) (by decide)⟩

/-- C3: an edit whose source fails static analysis marks the edited unit
`error(SyntaxError)` and stops: the unit's previously recorded defined and
referenced names and body are kept, every other unit is untouched, no
unit executes, the Runtime Environment is unchanged, and (when the edited
unit was not disabled) every derived dependency edge is unchanged. -/
theorem C3_syntax_error_confined (i : Nat) (nb : Notebook) (hi : i < nb.len) :
    (applyEdit i .bad nb).2 = [] ∧
    ((applyEdit i .bad nb).1.unit i).status = .error .syntaxErr ∧
    ((applyEdit i .bad nb).1.unit i).code = (nb.unit i).code ∧
    ((applyEdit i .bad nb).1.unit i).defs = (nb.unit i).defs ∧
    ((applyEdit i .bad nb).1.unit i).refs = (nb.unit i).refs ∧
    ((applyEdit i .bad nb).1.unit i).output = (nb.unit i).output ∧
    (∀ j, j ≠ i → (applyEdit i .bad nb).1.unit j = nb.unit j) ∧
    (∀ n, (applyEdit i .bad nb).1.env n = nb.env n) ∧
    ((nb.unit i).status ≠ .disabled →
      ∀ j k, edgeB (applyEdit i .bad nb).1 j k = edgeB nb j k) := by
  have h : applyEdit i .bad nb = (markStatus i (.error .syntaxErr) nb, []) := by
    unfold applyEdit
    rw [if_pos hi]
  rw [h]
  refine ⟨rfl, ?_, ?_, ?_, ?_, ?_, ?_, ?_, ?_⟩
  · simp [unit_markStatus]
  · simp [unit_markStatus]
  · simp [unit_markStatus]
  · simp [unit_markStatus]
  · simp [unit_markStatus]
  · intro j hj
    simp [unit_markStatus, hj]
  · intro n
    rfl
  · intro hdis j k
    have hliv : LiveEq (markStatus i (.error .syntaxErr) nb) nb := by
      refine ⟨rfl, fun j2 => ?_⟩
      by_cases hj2 : j2 = i
      · subst hj2
        rw [unit_markStatus, if_pos rfl]
        refine ⟨rfl, rfl, rfl, ?_, ?_⟩
        · intro hc
          cases hc
        · intro hc
          exact absurd hc hdis
      · rw [unit_markStatus, if_neg hj2]
        exact ⟨rfl, rfl, rfl, Iff.rfl⟩
    rw [hliv.edgeB_eq]

/-- C3 (witness): syntax-error edit on a concrete one-unit notebook. -/
theorem C3_syntax_error_confined_witness :
    (0 < (runAllNB [Src.mkCode [(0, Expr.const 1)]]).len) ∧
    ((applyEdit 0 .bad (runAllNB [Src.mkCode [(0, Expr.const 1)]])).2 = [] ∧
      ((applyEdit 0 .bad (runAllNB [Src.mkCode [(0, Expr.const 1)]])).1.unit 0).status =
        .error .syntaxErr ∧
      ((applyEdit 0 .bad (runAllNB [Src.mkCode [(0, Expr.const 1)]])).1.unit 0).code =
        ((runAllNB [Src.mkCode [(0, Expr.const 1)]]).unit 0).code ∧
      ((applyEdit 0 .bad (runAllNB [Src.mkCode [(0, Expr.const 1)]])).1.unit 0).defs =
        ((runAllNB [Src.mkCode [(0, Expr.const 1)]]).unit 0).defs ∧
      ((applyEdit 0 .bad (runAllNB [Src.mkCode [(0, Expr.const 1)]])).1.unit 0).refs =
        ((runAllNB [Src.mkCode [(0, Expr.const 1)]]).unit 0).refs ∧
      ((applyEdit 0 .bad (runAllNB [Src.mkCode [(0, Expr.const 1)]])).1.unit 0).output =
        ((runAllNB [Src.mkCode [(0, Expr.const 1)]]).unit 0).output ∧
      (∀ j, j ≠ 0 → (applyEdit 0 .bad (runAllNB [Src.mkCode [(0, Expr.const 1)]])).1.unit j =
        (runAllNB [Src.mkCode [(0, Expr.const 1)]]).unit j) ∧
      (∀ n, (applyEdit 0 .bad (runAllNB [Src.mkCode [(0, Expr.const 1)]])).1.env n =
        (runAllNB [Src.mkCode [(0, Expr.const 1)]]).env n) ∧
      (((runAllNB [Src.mkCode [(0, Expr.const 1)]]).unit 0).status ≠ .disabled →
        ∀ j k, edgeB (applyEdit 0 .bad (runAllNB [Src.mkCode [(0, Expr.const 1)]])).1 j k =
          edgeB (runAllNB [Src.mkCode [(0, Expr.const 1)]]) j k)) :=
  ⟨by decide, C3_syntax_error_confined 0 (runAllNB [Src.mkCode [(0, Expr.const 1)]])
    (by decide)⟩

/-- C4: after an edit, every unit lying on a dependency cycle of the
updated graph carries `error(CycleError)` and is not scheduled, and no
unit downstream of it (in particular one depending solely on cycle
members) is executed in the pass; conversely, when the edit leaves the
graph acyclic (and conflict-free), no unit retains a `CycleError` status
and every formerly-cyclic unit is rescheduled in this very pass, without
editing the others. -/
theorem C4_cycle_error_and_recovery (i : Nat) (stmts : List Stmt) (nb : Notebook)
    (hi : i < nb.len) :
    (∀ v, v ∈ strictDescF (upsertE i stmts nb) {v} →
      ((applyEdit i (.mkCode stmts) nb).1.unit v).status = .error .cycleErr ∧
      (∀ e ∈ (applyEdit i (.mkCode stmts) nb).2, evUnit e ≠ v) ∧
      (∀ w, w ∈ strictDescF (upsertE i stmts nb) {v} →
        PassEv.ran w ∉ (applyEdit i (.mkCode stmts) nb).2 ∧
        PassEv.faulted w ∉ (applyEdit i (.mkCode stmts) nb).2)) ∧
    (acyclicB (upsertE i stmts nb) = true →
      uniqueDefsB (upsertE i stmts nb) = true →
      (∀ v, ((applyEdit i (.mkCode stmts) nb).1.unit v).status ≠ .error .cycleErr) ∧
      (∀ v, v < nb.len → (nb.unit v).status = .error .cycleErr →
        v ∈ ((applyEdit i (.mkCode stmts) nb).2).map evUnit)) := by
  have happ := applyEdit_code_eq i stmts nb hi
  rw [runPassOn_eq] at happ
  have hliv := recompute_liveEq (upsertE i stmts nb)
  have hnd := orderOf_nodup (structuralRecompute (upsertE i stmts nb)).1
    (passTargets (structuralRecompute (upsertE i stmts nb)).1
      (insert i (strictDescF (structuralRecompute (upsertE i stmts nb)).1 {i}) ∪
        (structuralRecompute (upsertE i stmts nb)).2 ∪
        strictDescF (structuralRecompute (upsertE i stmts nb)).1
          (structuralRecompute (upsertE i stmts nb)).2))
    (passTargets_nodup _ _)
  constructor
  · intro v hv
    have hvT := mem_strictDescF_single.mp hv
    obtain ⟨hvlen, hvnd⟩ := transGen_edge_target hvT
    have hvcyc : v ∈ cycleSetF (upsertE i stmts nb) :=
      mem_cycleSetF.mpr ⟨hvlen, hv⟩
    have hPstat : ((structuralRecompute (upsertE i stmts nb)).1.unit v).status =
        .error .cycleErr := by
      rw [recompute_unit_eq]
      show recomputeStatus (upsertE i stmts nb) v = .error .cycleErr
      unfold recomputeStatus
      rw [if_neg hvnd, if_pos hvcyc]
    have hvnotorder : v ∉ orderOf (structuralRecompute (upsertE i stmts nb)).1
        (passTargets (structuralRecompute (upsertE i stmts nb)).1
          (insert i (strictDescF (structuralRecompute (upsertE i stmts nb)).1 {i}) ∪
            (structuralRecompute (upsertE i stmts nb)).2 ∪
            strictDescF (structuralRecompute (upsertE i stmts nb)).1
              (structuralRecompute (upsertE i stmts nb)).2)) := by
      intro hmem
      obtain ⟨_, _, hsched⟩ := mem_passTargets.mp (mem_orderOf.mp hmem)
      rw [schedulableB, hPstat] at hsched
      cases hsched
    refine ⟨?_, ?_, ?_⟩
    · rw [happ, runUnits_unit_frame _ _ _ _ v hvnotorder]
      exact hPstat
    · intro e he hev
      rw [happ] at he
      have h1 : evUnit e ∈ _ := List.mem_map_of_mem evUnit he
      rw [runUnits_evs_units] at h1
      rw [hev] at h1
      exact hvnotorder h1
    · intro w hw
      have hwP : w ∈ strictDescF (structuralRecompute (upsertE i stmts nb)).1 {v} := by
        rw [hliv.strictDescF_eq]
        exact hw
      have hstructv : v ∈ structErrSet (structuralRecompute (upsertE i stmts nb)).1 := by
        refine Finset.mem_filter.mpr ⟨Finset.mem_range.mpr hvlen, ?_⟩
        rw [hPstat]
        rfl
      have hwK : w ∈ strictDescF (structuralRecompute (upsertE i stmts nb)).1
          (structErrSet (structuralRecompute (upsertE i stmts nb)).1) :=
        strictDescF_mono (Finset.singleton_subset_iff.mpr hstructv) hwP
      by_cases hwo : w ∈ orderOf (structuralRecompute (upsertE i stmts nb)).1
          (passTargets (structuralRecompute (upsertE i stmts nb)).1
            (insert i (strictDescF (structuralRecompute (upsertE i stmts nb)).1 {i}) ∪
              (structuralRecompute (upsertE i stmts nb)).2 ∪
              strictDescF (structuralRecompute (upsertE i stmts nb)).1
                (structuralRecompute (upsertE i stmts nb)).2))
      · have hskipw := runUnits_skip_run (structuralRecompute (upsertE i stmts nb)).1
          _ (structuralRecompute (upsertE i stmts nb)).1 _ w hwo hwK
        have hinj := runUnits_ev_inj (structuralRecompute (upsertE i stmts nb)).1
          _ (structuralRecompute (upsertE i stmts nb)).1
          (strictDescF (structuralRecompute (upsertE i stmts nb)).1
            (structErrSet (structuralRecompute (upsertE i stmts nb)).1)) hnd
        constructor
        · intro hran
          rw [happ] at hran
          cases hinj _ hran _ hskipw rfl
        · intro hfw
          rw [happ] at hfw
          cases hinj _ hfw _ hskipw rfl
      · constructor
        · intro hran
          rw [happ] at hran
          have h1 : evUnit (PassEv.ran w) ∈ _ := List.mem_map_of_mem evUnit hran
          rw [runUnits_evs_units] at h1
          exact hwo h1
        · intro hfw
          rw [happ] at hfw
          have h1 : evUnit (PassEv.faulted w) ∈ _ := List.mem_map_of_mem evUnit hfw
          rw [runUnits_evs_units] at h1
          exact hwo h1
  · intro hacy2 huq2
    have hacyBt := acyclicB_iff.mp hacy2
    have huBt := uniqueDefsB_to huq2
    constructor
    · intro v
      by_cases hvo : v ∈ orderOf (structuralRecompute (upsertE i stmts nb)).1
          (passTargets (structuralRecompute (upsertE i stmts nb)).1
            (insert i (strictDescF (structuralRecompute (upsertE i stmts nb)).1 {i}) ∪
              (structuralRecompute (upsertE i stmts nb)).2 ∪
              strictDescF (structuralRecompute (upsertE i stmts nb)).1
                (structuralRecompute (upsertE i stmts nb)).2))
      · have hout := runUnits_outcome (structuralRecompute (upsertE i stmts nb)).1 _
          (structuralRecompute (upsertE i stmts nb)).1
          (strictDescF (structuralRecompute (upsertE i stmts nb)).1
            (structErrSet (structuralRecompute (upsertE i stmts nb)).1)) v hnd hvo
        rw [happ]
        rcases hout with ⟨_, h2, _⟩ | ⟨_, h2⟩ | ⟨_, h2, _⟩ | ⟨_, h2, _⟩ <;>
          rw [h2] <;> decide
      · rw [happ, runUnits_unit_frame _ _ _ _ v hvo, recompute_unit_eq]
        exact recomputeStatus_ne_cycle hacyBt
    · intro v hvlen hvstat
      have hBtstat : ((upsertE i stmts nb).unit v).status = .error .cycleErr := by
        rw [upsertE_status]
        exact hvstat
      have hrec : recomputeStatus (upsertE i stmts nb) v = .stale := by
        unfold recomputeStatus
        rw [if_neg (by rw [hBtstat]; intro hc; cases hc),
          if_neg (by rw [cycleSetF_empty hacyBt]; exact Finset.not_mem_empty v),
          if_neg (by rw [conflictSetF_empty huBt]; exact Finset.not_mem_empty v),
          if_pos (by rw [hBtstat]; rfl)]
      have hcl : v ∈ (structuralRecompute (upsertE i stmts nb)).2 := by
        refine mem_cleared.mpr ⟨hvlen, by rw [hBtstat]; rfl, by rw [hrec]; rfl⟩
      have hvT : v ∈ passTargets (structuralRecompute (upsertE i stmts nb)).1
          (insert i (strictDescF (structuralRecompute (upsertE i stmts nb)).1 {i}) ∪
            (structuralRecompute (upsertE i stmts nb)).2 ∪
            strictDescF (structuralRecompute (upsertE i stmts nb)).1
              (structuralRecompute (upsertE i stmts nb)).2) := by
        refine mem_passTargets.mpr ⟨hvlen, ?_, ?_⟩
        · exact Finset.mem_union_left _ (Finset.mem_union_right _ hcl)
        · have hst : ((structuralRecompute (upsertE i stmts nb)).1.unit v).status =
              .stale := by
            rw [recompute_unit_eq]
            exact hrec
          simp [schedulableB, hst]
      rw [happ, runUnits_evs_units]
      exact mem_orderOf.mpr hvT

/-- C4 (witness): the two-unit cycle `a := b; b := a`, re-editing unit 0
with the same cyclic body. -/
theorem C4_cycle_error_and_recovery_witness :
    (0 < (runAllNB [Src.mkCode [(10, Expr.var 11)],
      Src.mkCode [(11, Expr.var 10)]]).len) ∧
    ((∀ v, v ∈ strictDescF (upsertE 0 [(10, Expr.var 11)]
        (runAllNB [Src.mkCode [(10, Expr.var 11)], Src.mkCode [(11, Expr.var 10)]])) {v} →
      ((applyEdit 0 (.mkCode [(10, Expr.var 11)])
        (runAllNB [Src.mkCode [(10, Expr.var 11)],
          Src.mkCode [(11, Expr.var 10)]])).1.unit v).status = .error .cycleErr ∧
      (∀ e ∈ (applyEdit 0 (.mkCode [(10, Expr.var 11)])
        (runAllNB [Src.mkCode [(10, Expr.var 11)],
          Src.mkCode [(11, Expr.var 10)]])).2, evUnit e ≠ v) ∧
      (∀ w, w ∈ strictDescF (upsertE 0 [(10, Expr.var 11)]
          (runAllNB [Src.mkCode [(10, Expr.var 11)], Src.mkCode [(11, Expr.var 10)]])) {v} →
        PassEv.ran w ∉ (applyEdit 0 (.mkCode [(10, Expr.var 11)])
          (runAllNB [Src.mkCode [(10, Expr.var 11)],
            Src.mkCode [(11, Expr.var 10)]])).2 ∧
        PassEv.faulted w ∉ (applyEdit 0 (.mkCode [(10, Expr.var 11)])
          (runAllNB [Src.mkCode [(10, Expr.var 11)],
            Src.mkCode [(11, Expr.var 10)]])).2)) ∧
    (acyclicB (upsertE 0 [(10, Expr.var 11)]
        (runAllNB [Src.mkCode [(10, Expr.var 11)], Src.mkCode [(11, Expr.var 10)]])) = true →
      uniqueDefsB (upsertE 0 [(10, Expr.var 11)]
        (runAllNB [Src.mkCode [(10, Expr.var 11)], Src.mkCode [(11, Expr.var 10)]])) = true →
      (∀ v, ((applyEdit 0 (.mkCode [(10, Expr.var 11)])
        (runAllNB [Src.mkCode [(10, Expr.var 11)],
          Src.mkCode [(11, Expr.var 10)]])).1.unit v).status ≠ .error .cycleErr) ∧
      (∀ v, v < (runAllNB [Src.mkCode [(10, Expr.var 11)],
          Src.mkCode [(11, Expr.var 10)]]).len →
        ((runAllNB [Src.mkCode [(10, Expr.var 11)],
          Src.mkCode [(11, Expr.var 10)]]).unit v).status = .error .cycleErr →
        v ∈ ((applyEdit 0 (.mkCode [(10, Expr.var 11)])
          (runAllNB [Src.mkCode [(10, Expr.var 11)],
            Src.mkCode [(11, Expr.var 10)]])).2).map evUnit))) ∧
    (0 ∈ strictDescF (upsertE 0 [(10, Expr.var 11)]
      (runAllNB [Src.mkCode [(10, Expr.var 11)], Src.mkCode [(11, Expr.var 10)]])) {0}) :=
  ⟨by decide,
    C4_cycle_error_and_recovery 0 [(10, Expr.var 11)]
      (runAllNB [Src.mkCode [(10, Expr.var 11)], Src.mkCode [(11, Expr.var 10)]])
      (by decide),
    by decide⟩

theorem recomputeStatus_structErr_false {nb : Notebook} {v : Nat}
    (hacy : AcyclicP nb) (hu : UniqueDefsP nb) :
    structErr (recomputeStatus nb v) = false := by
  unfold recomputeStatus
  rw [cycleSetF_empty hacy, conflictSetF_empty hu]
  by_cases hd : (nb.unit v).status = .disabled
  · rw [if_pos hd]
    rfl
  · rw [if_neg hd, if_neg (Finset.not_mem_empty v), if_neg (Finset.not_mem_empty v)]
    by_cases hs : structErr (nb.unit v).status = true
    · rw [if_pos hs]
      rfl
    · rw [if_neg hs]
      exact Bool.eq_false_iff.mpr hs

theorem setDisabledOp_eq (a : Nat) (nb : Notebook) (ha : a < nb.len) :
    setDisabledOp a nb =
      runPassOn (structuralRecompute (markStatus a .disabled nb)).1
        (passTargets (structuralRecompute (markStatus a .disabled nb)).1
          ((structuralRecompute (markStatus a .disabled nb)).2 ∪
            strictDescF (structuralRecompute (markStatus a .disabled nb)).1
              (structuralRecompute (markStatus a .disabled nb)).2)) := by
  unfold setDisabledOp
  rw [if_pos ha]

/-- C5: when an edit leaves a name with two live (non-disabled) definers,
every live definer of that name, both named definers, and everything
reachable downstream of either are in the conflict set; every conflict-set
unit ends the pass with `error(MultipleDefinitionError)` and is not
executed (so the second definition never overwrites the first); and
disabling one definer, when it removes all conflicts, leaves no unit in
`MultipleDefinitionError`, reschedules every formerly conflicted unit, and
changes no unit's source. -/
theorem C5_conflict_marking_and_disable (i : Nat) (stmts : List Stmt)
    (nb : Notebook) (n : Name) (a b : Nat)
    (hi : i < nb.len)
    (hacy : acyclicB (upsertE i stmts nb) = true)
    (hab : a ≠ b)
    (han : ndefB (upsertE i stmts nb) a n = true)
    (hbn : ndefB (upsertE i stmts nb) b n = true) :
    ((∀ j, ndefB (upsertE i stmts nb) j n = true →
        j ∈ conflictSetF (upsertE i stmts nb)) ∧
      a ∈ conflictSetF (upsertE i stmts nb) ∧
      b ∈ conflictSetF (upsertE i stmts nb) ∧
      strictDescF (upsertE i stmts nb) {a} ∪ strictDescF (upsertE i stmts nb) {b} ⊆
        conflictSetF (upsertE i stmts nb)) ∧
    (∀ v, v ∈ conflictSetF (upsertE i stmts nb) →
      ((applyEdit i (.mkCode stmts) nb).1.unit v).status = .error .multiDefErr ∧
      ∀ e ∈ (applyEdit i (.mkCode stmts) nb).2, evUnit e ≠ v) ∧
    (acyclicB (markStatus a .disabled (applyEdit i (.mkCode stmts) nb).1) = true →
      uniqueDefsB (markStatus a .disabled (applyEdit i (.mkCode stmts) nb).1) = true →
      (∀ v, ((setDisabledOp a (applyEdit i (.mkCode stmts) nb).1).1.unit v).status ≠
        .error .multiDefErr) ∧
      (∀ w, w < nb.len → w ≠ a →
        ((applyEdit i (.mkCode stmts) nb).1.unit w).status = .error .multiDefErr →
        w ∈ ((setDisabledOp a (applyEdit i (.mkCode stmts) nb).1).2).map evUnit) ∧
      (∀ j, ((setDisabledOp a (applyEdit i (.mkCode stmts) nb).1).1.unit j).code =
        ((applyEdit i (.mkCode stmts) nb).1.unit j).code)) := by
  have happ := applyEdit_code_eq i stmts nb hi
  rw [runPassOn_eq] at happ
  have hacyP := acyclicB_iff.mp hacy
  have hconf : conflictedB (upsertE i stmts nb) n = true := by
    apply decide_eq_true
    apply Finset.one_lt_card.mpr
    refine ⟨a, ?_, b, ?_, hab⟩
    · exact Finset.mem_filter.mpr
        ⟨Finset.mem_range.mpr (ndefB_iff.mp han).1, han⟩
    · exact Finset.mem_filter.mpr
        ⟨Finset.mem_range.mpr (ndefB_iff.mp hbn).1, hbn⟩
  have hdefc : ∀ j, ndefB (upsertE i stmts nb) j n = true →
      j ∈ conflictCore (upsertE i stmts nb) := by
    intro j hj
    obtain ⟨hjl, hjnd, hjdefs⟩ := ndefB_iff.mp hj
    refine Finset.mem_filter.mpr ⟨Finset.mem_range.mpr hjl, hjnd, ?_⟩
    exact List.any_eq_true.mpr ⟨n, hjdefs, hconf⟩
  have hcores : ∀ j, j ∈ conflictCore (upsertE i stmts nb) →
      j ∈ conflictSetF (upsertE i stmts nb) := fun j hj => Finset.mem_union_left _ hj
  have hres : ∀ v, v ∈ conflictSetF (upsertE i stmts nb) →
      recomputeStatus (upsertE i stmts nb) v = .error .multiDefErr := by
    intro v hv
    have hvnd : ((upsertE i stmts nb).unit v).status ≠ .disabled := by
      rcases Finset.mem_union.mp hv with hc | hd
      · exact (Finset.mem_filter.mp hc).2.1
      · obtain ⟨j, _, hT⟩ := mem_strictDescF.mp hd
        exact (transGen_edge_target hT).2
    unfold recomputeStatus
    rw [if_neg hvnd,
      if_neg (by rw [cycleSetF_empty hacyP]; exact Finset.not_mem_empty v),
      if_pos hv]
  refine ⟨⟨fun j hj => hcores j (hdefc j hj), hcores a (hdefc a han),
    hcores b (hdefc b hbn), ?_⟩, ?_, ?_⟩
  · intro w hw
    rcases Finset.mem_union.mp hw with h1 | h1
    · exact Finset.mem_union_right _
        (strictDescF_mono (Finset.singleton_subset_iff.mpr (hdefc a han)) h1)
    · exact Finset.mem_union_right _
        (strictDescF_mono (Finset.singleton_subset_iff.mpr (hdefc b hbn)) h1)
  · intro v hv
    have hPstat : ((structuralRecompute (upsertE i stmts nb)).1.unit v).status =
        .error .multiDefErr := by
      rw [recompute_unit_eq]
      show recomputeStatus (upsertE i stmts nb) v = .error .multiDefErr
      exact hres v hv
    have hvnotorder : v ∉ orderOf (structuralRecompute (upsertE i stmts nb)).1
        (passTargets (structuralRecompute (upsertE i stmts nb)).1
          (insert i (strictDescF (structuralRecompute (upsertE i stmts nb)).1 {i}) ∪
            (structuralRecompute (upsertE i stmts nb)).2 ∪
            strictDescF (structuralRecompute (upsertE i stmts nb)).1
              (structuralRecompute (upsertE i stmts nb)).2)) := by
      intro hmem
      obtain ⟨_, _, hsched⟩ := mem_passTargets.mp (mem_orderOf.mp hmem)
      rw [schedulableB, hPstat] at hsched
      cases hsched
    constructor
    · rw [happ, runUnits_unit_frame _ _ _ _ v hvnotorder]
      exact hPstat
    · intro e he hev
      rw [happ] at he
      have h1 : evUnit e ∈ _ := List.mem_map_of_mem evUnit he
      rw [runUnits_evs_units] at h1
      rw [hev] at h1
      exact hvnotorder h1
  · intro hacy2 huq2
    have hacyM := acyclicB_iff.mp hacy2
    have huM := uniqueDefsB_to huq2
    have halen : a < (applyEdit i (.mkCode stmts) nb).1.len := by
      rw [happ, runUnits_len]
      exact (ndefB_iff.mp han).1
    have hset := setDisabledOp_eq a (applyEdit i (.mkCode stmts) nb).1 halen
    rw [runPassOn_eq] at hset
    have hnd2 := orderOf_nodup
      (structuralRecompute (markStatus a .disabled (applyEdit i (.mkCode stmts) nb).1)).1
      (passTargets
        (structuralRecompute (markStatus a .disabled (applyEdit i (.mkCode stmts) nb).1)).1
        ((structuralRecompute (markStatus a .disabled (applyEdit i (.mkCode stmts) nb).1)).2 ∪
          strictDescF
            (structuralRecompute (markStatus a .disabled (applyEdit i (.mkCode stmts) nb).1)).1
            (structuralRecompute (markStatus a .disabled (applyEdit i (.mkCode stmts) nb).1)).2))
      (passTargets_nodup _ _)
    refine ⟨?_, ?_, ?_⟩
    · intro v
      by_cases hvo : v ∈ orderOf
          (structuralRecompute (markStatus a .disabled (applyEdit i (.mkCode stmts) nb).1)).1
          (passTargets
            (structuralRecompute (markStatus a .disabled (applyEdit i (.mkCode stmts) nb).1)).1
            ((structuralRecompute (markStatus a .disabled (applyEdit i (.mkCode stmts) nb).1)).2 ∪
              strictDescF
                (structuralRecompute (markStatus a .disabled (applyEdit i (.mkCode stmts) nb).1)).1
                (structuralRecompute (markStatus a .disabled (applyEdit i (.mkCode stmts) nb).1)).2))
      · have hout := runUnits_outcome
          (structuralRecompute (markStatus a .disabled (applyEdit i (.mkCode stmts) nb).1)).1 _
          (structuralRecompute (markStatus a .disabled (applyEdit i (.mkCode stmts) nb).1)).1
          (strictDescF
            (structuralRecompute (markStatus a .disabled (applyEdit i (.mkCode stmts) nb).1)).1
            (structErrSet
              (structuralRecompute (markStatus a .disabled (applyEdit i (.mkCode stmts) nb).1)).1))
          v hnd2 hvo
        rw [hset]
        rcases hout with ⟨_, h2, _⟩ | ⟨_, h2⟩ | ⟨_, h2, _⟩ | ⟨_, h2, _⟩ <;>
          rw [h2] <;> decide
      · rw [hset, runUnits_unit_frame _ _ _ _ v hvo, recompute_unit_eq]
        show recomputeStatus (markStatus a .disabled (applyEdit i (.mkCode stmts) nb).1) v ≠
          .error .multiDefErr
        intro hc
        have hsf := recomputeStatus_structErr_false (v := v) hacyM huM
        rw [hc] at hsf
        exact absurd hsf (by decide)
    · intro w hwlen hwa hwst
      have hMw : ((markStatus a .disabled (applyEdit i (.mkCode stmts) nb).1).unit w).status =
          .error .multiDefErr := by
        rw [unit_markStatus, if_neg hwa]
        exact hwst
      have hrec : recomputeStatus (markStatus a .disabled (applyEdit i (.mkCode stmts) nb).1) w =
          .stale := by
        unfold recomputeStatus
        rw [if_neg (by rw [hMw]; intro hc; cases hc),
          if_neg (by rw [cycleSetF_empty hacyM]; exact Finset.not_mem_empty w),
          if_neg (by rw [conflictSetF_empty huM]; exact Finset.not_mem_empty w),
          if_pos (by rw [hMw]; rfl)]
      have hwlen2 : w < (markStatus a .disabled (applyEdit i (.mkCode stmts) nb).1).len := by
        show w < (applyEdit i (.mkCode stmts) nb).1.len
        rw [happ, runUnits_len]
        exact hwlen
      have hcl : w ∈ (structuralRecompute
          (markStatus a .disabled (applyEdit i (.mkCode stmts) nb).1)).2 :=
        mem_cleared.mpr ⟨hwlen2, by rw [hMw]; rfl, by rw [hrec]; rfl⟩
      have hvT : w ∈ passTargets
          (structuralRecompute (markStatus a .disabled (applyEdit i (.mkCode stmts) nb).1)).1
          ((structuralRecompute (markStatus a .disabled (applyEdit i (.mkCode stmts) nb).1)).2 ∪
            strictDescF
              (structuralRecompute (markStatus a .disabled (applyEdit i (.mkCode stmts) nb).1)).1
              (structuralRecompute (markStatus a .disabled (applyEdit i (.mkCode stmts) nb).1)).2) := by
        refine mem_passTargets.mpr ⟨hwlen2, Finset.mem_union_left _ hcl, ?_⟩
        have hst : ((structuralRecompute
            (markStatus a .disabled (applyEdit i (.mkCode stmts) nb).1)).1.unit w).status =
            .stale := by
          rw [recompute_unit_eq]
          exact hrec
        simp [schedulableB, hst]
      rw [hset, runUnits_evs_units]
      exact mem_orderOf.mpr hvT
    · intro j
      rw [hset]
      have h1 := (runUnits_uData
        (structuralRecompute (markStatus a .disabled (applyEdit i (.mkCode stmts) nb).1)).1
        (orderOf
          (structuralRecompute (markStatus a .disabled (applyEdit i (.mkCode stmts) nb).1)).1
          (passTargets
            (structuralRecompute (markStatus a .disabled (applyEdit i (.mkCode stmts) nb).1)).1
            ((structuralRecompute (markStatus a .disabled (applyEdit i (.mkCode stmts) nb).1)).2 ∪
              strictDescF
                (structuralRecompute (markStatus a .disabled (applyEdit i (.mkCode stmts) nb).1)).1
                (structuralRecompute (markStatus a .disabled (applyEdit i (.mkCode stmts) nb).1)).2)))
        (structuralRecompute (markStatus a .disabled (applyEdit i (.mkCode stmts) nb).1)).1
        (strictDescF
          (structuralRecompute (markStatus a .disabled (applyEdit i (.mkCode stmts) nb).1)).1
          (structErrSet
            (structuralRecompute (markStatus a .disabled (applyEdit i (.mkCode stmts) nb).1)).1))
        j).1
      rw [h1, recompute_unit_eq]
      show ((markStatus a .disabled (applyEdit i (.mkCode stmts) nb).1).unit j).code =
        ((applyEdit i (.mkCode stmts) nb).1.unit j).code
      rw [unit_markStatus]
      by_cases hj : j = a
      · subst hj
        rw [if_pos rfl]
      · rw [if_neg hj]

/-- C5 (witness): a two-unit notebook where re-editing unit 1 makes it
define the same name as unit 0; disabling unit 0 reschedules unit 1. -/
theorem C5_conflict_marking_and_disable_witness :
    (1 < (runAllNB [Src.mkCode [(20, Expr.const 1)],
      Src.mkCode [(21, Expr.var 20)]]).len) ∧
    (acyclicB (upsertE 1 [(20, Expr.const 2)]
      (runAllNB [Src.mkCode [(20, Expr.const 1)],
        Src.mkCode [(21, Expr.var 20)]])) = true) ∧
    ((0 : Nat) ≠ 1) ∧
    (ndefB (upsertE 1 [(20, Expr.const 2)]
      (runAllNB [Src.mkCode [(20, Expr.const 1)],
        Src.mkCode [(21, Expr.var 20)]])) 0 20 = true) ∧
    (ndefB (upsertE 1 [(20, Expr.const 2)]
      (runAllNB [Src.mkCode [(20, Expr.const 1)],
        Src.mkCode [(21, Expr.var 20)]])) 1 20 = true) ∧
    (((applyEdit 1 (.mkCode [(20, Expr.const 2)])
      (runAllNB [Src.mkCode [(20, Expr.const 1)],
        Src.mkCode [(21, Expr.var 20)]])).1.unit 0).status = .error .multiDefErr) ∧
    (((applyEdit 1 (.mkCode [(20, Expr.const 2)])
      (runAllNB [Src.mkCode [(20, Expr.const 1)],
        Src.mkCode [(21, Expr.var 20)]])).1.unit 1).status = .error .multiDefErr) ∧
    (1 ∈ ((setDisabledOp 0 (applyEdit 1 (.mkCode [(20, Expr.const 2)])
      (runAllNB [Src.mkCode [(20, Expr.const 1)],
        Src.mkCode [(21, Expr.var 20)]])).1).2).map evUnit) := by
  refine ⟨by decide, by decide, by decide, by decide, by decide, ?_, ?_, ?_⟩
  · exact ((C5_conflict_marking_and_disable 1 [(20, Expr.const 2)]
      (runAllNB [Src.mkCode [(20, Expr.const 1)], Src.mkCode [(21, Expr.var 20)]])
      20 0 1 (by decide) (by decide) (by decide) (by decide) (by decide)).2.1
      0 (by decide)).1
  · exact ((C5_conflict_marking_and_disable 1 [(20, Expr.const 2)]
      (runAllNB [Src.mkCode [(20, Expr.const 1)], Src.mkCode [(21, Expr.var 20)]])
      20 0 1 (by decide) (by decide) (by decide) (by decide) (by decide)).2.1
      1 (by decide)).1
  · exact ((C5_conflict_marking_and_disable 1 [(20, Expr.const 2)]
      (runAllNB [Src.mkCode [(20, Expr.const 1)], Src.mkCode [(21, Expr.var 20)]])
      20 0 1 (by decide) (by decide) (by decide) (by decide) (by decide)).2.2
      (by decide) (by decide)).2.1 1 (by decide) (by decide) (by decide)

/-- C6: the events of the scheduling pass triggered by an edit list the
affected units in a strict topological order of the edited dependency
graph — a unit never runs before one of its strict ancestors — and two
units of equal topological rank (neither depending on the other) run in
ascending original-position order.  The pass is a pure function of the
notebook state, so repeated identical edits replay the identical order. -/
theorem C6_topological_and_position_order (i : Nat) (stmts : List Stmt)
    (nb : Notebook) (hi : i < nb.len)
    (hacy : acyclicB (upsertE i stmts nb) = true) :
    ((applyEdit i (.mkCode stmts) nb).2.map evUnit).Pairwise
      (fun a b => (¬ Relation.TransGen (edgeP (upsertE i stmts nb)) b a) ∧
        (rankOf (upsertE i stmts nb) a = rankOf (upsertE i stmts nb) b → a < b)) := by
  have happ := applyEdit_code_eq i stmts nb hi
  rw [runPassOn_eq] at happ
  have hliv := recompute_liveEq (upsertE i stmts nb)
  have hacyP : AcyclicP (structuralRecompute (upsertE i stmts nb)).1 :=
    hliv.acyclic (acyclicB_iff.mp hacy)
  have hedge : edgeP (structuralRecompute (upsertE i stmts nb)).1 =
      edgeP (upsertE i stmts nb) := by
    unfold edgeP
    rw [hliv.edgeB_eq]
  rw [happ, runUnits_evs_units]
  have hsort : List.Pairwise
      (fun a b => keyOf (structuralRecompute (upsertE i stmts nb)).1 a ≤
        keyOf (structuralRecompute (upsertE i stmts nb)).1 b)
      (orderOf (structuralRecompute (upsertE i stmts nb)).1
        (passTargets (structuralRecompute (upsertE i stmts nb)).1
          (insert i (strictDescF (structuralRecompute (upsertE i stmts nb)).1 {i}) ∪
            (structuralRecompute (upsertE i stmts nb)).2 ∪
            strictDescF (structuralRecompute (upsertE i stmts nb)).1
              (structuralRecompute (upsertE i stmts nb)).2))) :=
    orderOf_sorted _ _
  have hnd : List.Pairwise (fun a b : Nat => a ≠ b)
      (orderOf (structuralRecompute (upsertE i stmts nb)).1
        (passTargets (structuralRecompute (upsertE i stmts nb)).1
          (insert i (strictDescF (structuralRecompute (upsertE i stmts nb)).1 {i}) ∪
            (structuralRecompute (upsertE i stmts nb)).2 ∪
            strictDescF (structuralRecompute (upsertE i stmts nb)).1
              (structuralRecompute (upsertE i stmts nb)).2))) :=
    orderOf_nodup _ _ (passTargets_nodup _ _)
  refine List.Pairwise.imp ?_ (List.Pairwise.and hsort hnd)
  intro a b hab
  obtain ⟨hk, hne⟩ := hab
  constructor
  · intro hT
    rw [← hedge] at hT
    exact absurd hk (Nat.not_le.mpr (key_lt_of_transGen hacyP hT))
  · intro hr
    have hrP : rankOf (structuralRecompute (upsertE i stmts nb)).1 a =
        rankOf (structuralRecompute (upsertE i stmts nb)).1 b := by
      rw [hliv.rankOf_eq, hliv.rankOf_eq]
      exact hr
    have hle := key_tie hrP hk
    omega

/-- C6 (witness): three units where units 1 and 2 each depend only on
unit 0; editing unit 0 re-runs unit 1 before unit 2, and the concrete
event list of the pass is exactly `ran 0, ran 1, ran 2`. -/
theorem C6_topological_and_position_order_witness :
    (0 < (runAllNB [Src.mkCode [(0, Expr.const 5)], Src.mkCode [(1, Expr.var 0)],
      Src.mkCode [(2, Expr.var 0)]]).len) ∧
    (acyclicB (upsertE 0 [(0, Expr.const 5)]
      (runAllNB [Src.mkCode [(0, Expr.const 5)], Src.mkCode [(1, Expr.var 0)],
        Src.mkCode [(2, Expr.var 0)]])) = true) ∧
    ((applyEdit 0 (.mkCode [(0, Expr.const 5)])
      (runAllNB [Src.mkCode [(0, Expr.const 5)], Src.mkCode [(1, Expr.var 0)],
        Src.mkCode [(2, Expr.var 0)]])).2.map evUnit).Pairwise
      (fun a b => (¬ Relation.TransGen (edgeP (upsertE 0 [(0, Expr.const 5)]
        (runAllNB [Src.mkCode [(0, Expr.const 5)], Src.mkCode [(1, Expr.var 0)],
          Src.mkCode [(2, Expr.var 0)]]))) b a) ∧
        (rankOf (upsertE 0 [(0, Expr.const 5)]
          (runAllNB [Src.mkCode [(0, Expr.const 5)], Src.mkCode [(1, Expr.var 0)],
            Src.mkCode [(2, Expr.var 0)]])) a =
         rankOf (upsertE 0 [(0, Expr.const 5)]
          (runAllNB [Src.mkCode [(0, Expr.const 5)], Src.mkCode [(1, Expr.var 0)],
            Src.mkCode [(2, Expr.var 0)]])) b → a < b)) ∧
    ((applyEdit 0 (.mkCode [(0, Expr.const 5)])
      (runAllNB [Src.mkCode [(0, Expr.const 5)], Src.mkCode [(1, Expr.var 0)],
        Src.mkCode [(2, Expr.var 0)]])).2 =
      [PassEv.ran 0, PassEv.ran 1, PassEv.ran 2]) :=
  ⟨by decide, by decide,
    C6_topological_and_position_order 0 [(0, Expr.const 5)]
      (runAllNB [Src.mkCode [(0, Expr.const 5)], Src.mkCode [(1, Expr.var 0)],
        Src.mkCode [(2, Expr.var 0)]]) (by decide) (by decide),
    by decide⟩

/-! ### Concurrency: the control-request machine -/

/-- Modelled from the spec (5): an edit request from the control queue —
the target unit and its new body. -/
structure Req where
  uid : Nat
  stmts : List Stmt
deriving DecidableEq

/-- Modelled from the spec (5): an in-flight scheduling pass — the request
index it serves, the graph snapshot, the ordered units still to run, and
the accumulated skip set. -/
structure Pass where
  ridx : Nat
  g : Notebook
  rem : List Nat
  skip : Finset Nat

/-- Modelled from the spec (5): scheduler state between machine steps —
notebook, the current pass (if any), and the status-subscription stream:
the published (request index, unit) events in order of publication. -/
structure MState where
  nb : Notebook
  cur : Option Pass
  trace : List (Nat × Nat)

/-- Trace extension for one pass event: only a successful `ran` publishes. -/
def pubTrace (k : Nat) (tr : List (Nat × Nat)) : PassEv → List (Nat × Nat)
  | .ran w => tr ++ [(k, w)]
  | _ => tr

/-- Modelled from the spec (4.3, 5): open the pass an edit request gives
rise to — upsert, structural recompute, and the ordered affected set —
without running anything yet. -/
def startPass (k : Nat) (r : Req) (nb : Notebook) : Notebook × Pass :=
  if r.uid < nb.len then
    let p := structuralRecompute (upsertE r.uid r.stmts nb)
    let base := insert r.uid (strictDescF p.1 {r.uid}) ∪ p.2 ∪ strictDescF p.1 p.2
    (p.1, ⟨k, p.1, orderOf p.1 (passTargets p.1 base), strictDescF p.1 (structErrSet p.1)⟩)
  else (nb, ⟨k, nb, [], ∅⟩)

/-- Modelled from the spec (5): one scheduler step.  An arriving request
supersedes the in-flight pass: its remaining work is discarded unpublished
and the new pass is opened (only the latest request's affected set is
honored).  With no arrival, the current pass executes one unit and, only
on success, publishes it to the trace tagged with the pass's request
index. -/
def machineStep (s : MState) : Option (Nat × Req) → MState
  | some (k, r) =>
    ⟨(startPass k r s.nb).1, some (startPass k r s.nb).2, s.trace⟩
  | none =>
    match s.cur with
    | none => s
    | some p =>
      match p.rem with
      | [] => ⟨s.nb, none, s.trace⟩
      | v :: rem =>
        ⟨(stepUnit p.g s.nb p.skip v).1,
          some ⟨p.ridx, p.g, rem, (stepUnit p.g s.nb p.skip v).2.1⟩,
          pubTrace p.ridx s.trace (stepUnit p.g s.nb p.skip v).2.2⟩

/-- Run the scheduler over a timed script of arrivals (`some`) and
work steps (`none`). -/
def runMachine (s : MState) : List (Option (Nat × Req)) → MState
  | [] => s
  | x :: rest => runMachine (machineStep s x) rest

theorem startPass_ridx (k : Nat) (r : Req) (nb : Notebook) :
    (startPass k r nb).2.ridx = k := by
  unfold startPass
  split <;> rfl

theorem pubTrace_spec (k : Nat) (tr : List (Nat × Nat)) (ev : PassEv) :
    ∃ add, pubTrace k tr ev = tr ++ add ∧ ∀ q ∈ add, q.1 = k := by
  cases ev with
  | ran w =>
    refine ⟨[(k, w)], rfl, ?_⟩
    intro q hq
    rw [List.mem_singleton] at hq
    rw [hq]
  | faulted w => exact ⟨[], (List.append_nil tr).symm, fun q hq => absurd hq (List.not_mem_nil q)⟩
  | skipped w => exact ⟨[], (List.append_nil tr).symm, fun q hq => absurd hq (List.not_mem_nil q)⟩
  | unresolvedRef w =>
    exact ⟨[], (List.append_nil tr).symm, fun q hq => absurd hq (List.not_mem_nil q)⟩

theorem runMachine_append :
    ∀ (l1 : List (Option (Nat × Req))) (s : MState) (l2 : List (Option (Nat × Req))),
      runMachine s (l1 ++ l2) = runMachine (runMachine s l1) l2
  | [], _, _ => rfl
  | x :: rest, s, l2 => runMachine_append rest (machineStep s x) l2

/-- After a point where no pass indexed `z` is in flight and no request
indexed `z` ever arrives again, the trace only grows by entries whose
request index differs from `z`. -/
theorem runMachine_no_foreign (z : Nat) :
    ∀ (inputs : List (Option (Nat × Req))) (s : MState),
      (∀ p, s.cur = some p → p.ridx ≠ z) →
      (∀ x ∈ inputs, ∀ k r, x = some (k, r) → k ≠ z) →
      ∃ t, (runMachine s inputs).trace = s.trace ++ t ∧ ∀ q ∈ t, q.1 ≠ z
  | [], s, _, _ =>
    ⟨[], by show s.trace = s.trace ++ []; rw [List.append_nil],
      fun q hq => absurd hq (List.not_mem_nil q)⟩
  | some kr :: rest, s, hcur, hinp => by
    obtain ⟨k, r⟩ := kr
    have hk : k ≠ z := hinp (some (k, r)) (List.mem_cons_self _ _) k r rfl
    obtain ⟨t, ht, hq⟩ := runMachine_no_foreign z rest
      ⟨(startPass k r s.nb).1, some (startPass k r s.nb).2, s.trace⟩
      (fun p hp => by
        have h4 : (startPass k r s.nb).2 = p := by injection hp
        rw [← h4, startPass_ridx]
        exact hk)
      (fun y hy => hinp y (List.mem_cons_of_mem _ hy))
    exact ⟨t, ht, hq⟩
  | none :: rest, s, hcur, hinp => by
    obtain ⟨nb0, cur0, tr0⟩ := s
    cases cur0 with
    | none =>
      obtain ⟨t, ht, hq⟩ := runMachine_no_foreign z rest ⟨nb0, none, tr0⟩
        (fun p hp => by cases hp)
        (fun y hy => hinp y (List.mem_cons_of_mem _ hy))
      exact ⟨t, ht, hq⟩
    | some p =>
      obtain ⟨ridx0, g0, rem0, skip0⟩ := p
      cases rem0 with
      | nil =>
        obtain ⟨t, ht, hq⟩ := runMachine_no_foreign z rest ⟨nb0, none, tr0⟩
          (fun p hp => by cases hp)
          (fun y hy => hinp y (List.mem_cons_of_mem _ hy))
        exact ⟨t, ht, hq⟩
      | cons v vs =>
        have hridx : ridx0 ≠ z := hcur ⟨ridx0, g0, v :: vs, skip0⟩ rfl
        obtain ⟨add, hadd, haddk⟩ := pubTrace_spec ridx0 tr0 (stepUnit g0 nb0 skip0 v).2.2
        obtain ⟨t, ht, hq⟩ := runMachine_no_foreign z rest
          ⟨(stepUnit g0 nb0 skip0 v).1,
            some ⟨ridx0, g0, vs, (stepUnit g0 nb0 skip0 v).2.1⟩,
            pubTrace ridx0 tr0 (stepUnit g0 nb0 skip0 v).2.2⟩
          (fun p hp => by
            have h4 : (⟨ridx0, g0, vs, (stepUnit g0 nb0 skip0 v).2.1⟩ : Pass) = p := by
              injection hp
            rw [← h4]
            exact hridx)
          (fun y hy => hinp y (List.mem_cons_of_mem _ hy))
        refine ⟨add ++ t, ?_, ?_⟩
        · show (runMachine ⟨(stepUnit g0 nb0 skip0 v).1,
              some ⟨ridx0, g0, vs, (stepUnit g0 nb0 skip0 v).2.1⟩,
              pubTrace ridx0 tr0 (stepUnit g0 nb0 skip0 v).2.2⟩ rest).trace =
            tr0 ++ (add ++ t)
          rw [ht, hadd, List.append_assoc]
        · intro q hq2
          rcases List.mem_append.mp hq2 with h | h
          · rw [haddk q h]
            exact hridx
          · exact hq q h

/-- C7: when a second edit request (index `k2`) arrives while the run of
an earlier request (index `k1`) has not yet published a unit, the earlier
run's remaining work is discarded: provided index `k1` is never reissued,
no `(k1, u)` publication ever appears in the status-subscription stream —
not even transiently — and everything published after the arrival is
tagged with the later requests' indices only. -/
theorem C7_cancelled_run_never_published (s0 : MState)
    (pre post : List (Option (Nat × Req))) (k1 k2 : Nat) (r2 : Req) (u : Nat)
    (h1 : (k1, u) ∉ (runMachine s0 pre).trace)
    (h2 : k1 ≠ k2)
    (h3 : ∀ x ∈ post, ∀ k r, x = some (k, r) → k ≠ k1) :
    ((k1, u) ∉ (runMachine s0 (pre ++ some (k2, r2) :: post)).trace) ∧
    ∃ t, (runMachine s0 (pre ++ some (k2, r2) :: post)).trace =
      (runMachine s0 pre).trace ++ t ∧ ∀ q ∈ t, q.1 ≠ k1 := by
  have hs := runMachine_append pre s0 (some (k2, r2) :: post)
  obtain ⟨t, ht, hq⟩ := runMachine_no_foreign k1 post
    ⟨(startPass k2 r2 (runMachine s0 pre).nb).1,
      some (startPass k2 r2 (runMachine s0 pre).nb).2,
      (runMachine s0 pre).trace⟩
    (fun p hp => by
      have h4 : (startPass k2 r2 (runMachine s0 pre).nb).2 = p := by injection hp
      rw [← h4, startPass_ridx]
      exact Ne.symm h2)
    h3
  constructor
  · intro hmem
    rw [hs] at hmem
    have hmem2 : (k1, u) ∈ (runMachine s0 pre).trace ++ t := by
      rw [← ht]
      exact hmem
    rcases List.mem_append.mp hmem2 with h | h
    · exact h1 h
    · exact hq _ h rfl
  · refine ⟨t, ?_, hq⟩
    rw [hs]
    exact ht

/-- C7 (witness): a one-unit notebook; request 1 edits the unit but a
second request (index 2) to the same unit arrives before any work step,
so request 1 publishes nothing, the final stream holds exactly the second
run's publication, and the Runtime Environment holds the second body's
value. -/
theorem C7_cancelled_run_never_published_witness :
    ((1, 0) ∉ (runMachine ⟨initNB [Src.mkCode [(0, Expr.const 1)]], none, []⟩
      [some (1, ⟨0, [(0, Expr.const 7)]⟩)]).trace) ∧
    ((1 : Nat) ≠ 2) ∧
    ((1, 0) ∉ (runMachine ⟨initNB [Src.mkCode [(0, Expr.const 1)]], none, []⟩
      ([some (1, ⟨0, [(0, Expr.const 7)]⟩)] ++
        some (2, ⟨0, [(0, Expr.const 9)]⟩) :: [none, none, none])).trace) ∧
    ((runMachine ⟨initNB [Src.mkCode [(0, Expr.const 1)]], none, []⟩
      ([some (1, ⟨0, [(0, Expr.const 7)]⟩)] ++
        some (2, ⟨0, [(0, Expr.const 9)]⟩) :: [none, none, none])).trace =
      [(2, 0)]) ∧
    ((runMachine ⟨initNB [Src.mkCode [(0, Expr.const 1)]], none, []⟩
      ([some (1, ⟨0, [(0, Expr.const 7)]⟩)] ++
        some (2, ⟨0, [(0, Expr.const 9)]⟩) :: [none, none, none])).nb.env 0 =
      some 9) :=
  ⟨by decide, by decide,
    (C7_cancelled_run_never_published
      ⟨initNB [Src.mkCode [(0, Expr.const 1)]], none, []⟩
      [some (1, ⟨0, [(0, Expr.const 7)]⟩)] [none, none, none] 1 2
      ⟨0, [(0, Expr.const 9)]⟩ 0 (by decide) (by decide)
      (by
        intro x hx k r hkr
        simp only [List.mem_cons, List.not_mem_nil, or_false] at hx
        rcases hx with h | h | h <;> (subst h; cases hkr))).1,
    by decide, by decide⟩

end MarimoSpec

